import Mathlib

/-!
Verification development for a Gmail-mirroring sync engine.

The engine pulls a user's remote mailbox into a local relational store.
This file gives a shallow embedding of its core components — the
retry-with-backoff executor, the paginated/batched message fetcher, the
MIME body extractor, the transactional thread/message upserter, the
full-sync page loop and the history-based incremental sync — and proves
(or refutes) the specified properties about them.

Modelling conventions:
* Machine-level JS values are mapped to `Nat` / `String` / `Option`;
  `Option Nat` models a `parseInt` result where `none` stands for `NaN`.
* Asynchronous operations are mapped to pure functions; an upstream call
  is a function from the attempt index to a result, so a retry loop can
  observe a different outcome per attempt.  `Promise.all` is mapped to a
  left-to-right join that propagates the first rejection.
* Database tables are lists of rows; `findFirst` is `List.find?`,
  an update keyed by a unique column is a key-preserving `List.map`,
  and a create appends.  Timestamps are `Nat` parameters (`now`).
* Base64 decoding models Node's forgiving `Buffer.from(s, 'base64')`
  followed by `toString`, faithful for ASCII payloads: non-alphabet
  characters (including `=` padding) are skipped and trailing bits that
  do not fill a byte are dropped.
-/

namespace GmailSync

/-! ### Backoff executor (`retryWithBackoff`) -/

/-- Shape of an upstream API error: `error.response?.status` and a parsed
numeric `retry-after` header (seconds), when present. -/
structure GmailApiError where
  status : Option Nat
  retryAfter : Option Nat
  deriving Repr, DecidableEq

/-- Outcome of a single upstream call attempt. -/
inductive FetchResult (α : Type) where
  | ok (v : α)
  | err (e : GmailApiError)
  deriving Repr, DecidableEq

/-- `gmailError?.response?.status === 429`. -/
def isRateLimit (e : GmailApiError) : Bool := e.status == some 429

/-- `(gmailError?.response?.status ?? 0) >= 500`. -/
def isServerErr (e : GmailApiError) : Bool := decide (500 ≤ e.status.getD 0)

/-- An error is retried exactly when it is a rate limit or a server error. -/
def isRetryable (e : GmailApiError) : Bool := isRateLimit e || isServerErr e

/-- Sleep computed before a retry: the `retry-after` hint in seconds
converted to ms when present, else exponential backoff. -/
def backoffDelay (baseDelay attempt : Nat) (e : GmailApiError) : Nat :=
  match e.retryAfter with
  | some ra => ra * 1000
  | none => baseDelay * 2 ^ attempt

/-- Observable trace of one `retryWithBackoff` run: the final outcome, how
many times the operation was attempted, and the list of sleeps taken. -/
structure RetryTrace (α : Type) where
  result : Except GmailApiError α
  attempts : Nat
  delays : List Nat
  deriving Repr

/-- Body of the retry loop.  `remaining` is `maxRetries - attempt`: the
source throws as soon as an attempt fails with `attempt === maxRetries`,
which is exactly `remaining = 0`; a non-retryable error propagates
immediately; otherwise the loop sleeps `backoffDelay` and retries. -/
def retryGo (fn : Nat → FetchResult α) (baseDelay : Nat) :
    Nat → Nat → RetryTrace α
  | attempt, 0 =>
    match fn attempt with
    | .ok v => ⟨.ok v, 1, []⟩
    | .err e => ⟨.error e, 1, []⟩
  | attempt, r + 1 =>
    match fn attempt with
    | .ok v => ⟨.ok v, 1, []⟩
    | .err e =>
      if isRetryable e then
        let t := retryGo fn baseDelay (attempt + 1) r
        ⟨t.result, t.attempts + 1, backoffDelay baseDelay attempt e :: t.delays⟩
      else ⟨.error e, 1, []⟩

/-- `retryWithBackoff(fn, maxRetries = 3, baseDelay = 1000)`. -/
def retryWithBackoff (fn : Nat → FetchResult α) (maxRetries : Nat := 3)
    (baseDelay : Nat := 1000) : RetryTrace α :=
  retryGo fn baseDelay 0 maxRetries

/-! ### Base64 decoding (`Buffer.from(data, 'base64').toString()`) -/

/-- Value of one base64 alphabet character; `none` for any other character
(Node skips characters outside the alphabet, including `=` padding). -/
def b64Val (c : Char) : Option Nat :=
  if 'A' ≤ c ∧ c ≤ 'Z' then some (c.toNat - 65)
  else if 'a' ≤ c ∧ c ≤ 'z' then some (c.toNat - 71)
  else if '0' ≤ c ∧ c ≤ '9' then some (c.toNat - 48 + 52)
  else if c = '+' then some 62
  else if c = '/' then some 63
  else none

/-- Forgiving base64 decode: collect the 6-bit values, concatenate the
bits, and read off whole bytes (trailing bits are dropped). -/
def decodeBase64 (s : String) : String :=
  let vals := s.data.filterMap b64Val
  let acc := vals.foldl (fun a v => a * 64 + v) 0
  let nbits := 6 * vals.length
  String.mk (((List.range (nbits / 8)).map
    (fun i => acc / 2 ^ (nbits - 8 * (i + 1)) % 256)).map Char.ofNat)

/-! ### Content parser -/

/-- One name/value header pair. -/
structure EmailHeader where
  name : String
  value : String
  deriving Repr, DecidableEq

/-- Result of `parseEmailHeaders`. -/
structure ParsedHeaders where
  fromA : String
  toA : String
  cc : String
  bcc : String
  subject : String
  date : String
  deriving Repr, DecidableEq

/-- ASCII lowercasing, modelling JS `toLowerCase()` on header names. -/
def lowerStr (s : String) : String := String.mk (s.data.map Char.toLower)

/-- Lookup in the `Map` built from lowercased header names.  A JS `Map`
constructor keeps the last entry for a repeated key, hence the search in
the reversed list. -/
def headerLookup (headers : List EmailHeader) (key : String) : String :=
  ((headers.reverse.find? (fun h => lowerStr h.name == key)).map
    (fun h => h.value)).getD ""

/-- `parseEmailHeaders`: normalized from/to/cc/bcc/subject/date record,
absent headers defaulting to the empty string. -/
def parseEmailHeaders (headers : List EmailHeader) : ParsedHeaders :=
  ⟨headerLookup headers "from", headerLookup headers "to",
   headerLookup headers "cc", headerLookup headers "bcc",
   headerLookup headers "subject", headerLookup headers "date"⟩

/-- JS truthiness of an optional string field: present and non-empty. -/
def truthyS : Option String → Bool
  | some s => s ≠ ""
  | none => false

/-- A MIME part: mime type, optional body data, nested parts.  The source
treats a missing `parts` array and an empty one identically inside the
walker (`if (part.parts)` recursing on `[]` is a no-op), so nested parts
are a plain list here. -/
inductive MimePart where
  | node (mimeType : String) (data : Option String) (sub : List MimePart)
  deriving Repr

/-- A message payload: headers, optional direct body data, and an optional
parts array.  `parts` stays an `Option` because `if (payload.parts)` with
an empty array present still takes the parts branch. -/
structure GmailPayload where
  headers : List EmailHeader
  data : Option String
  parts : Option (List MimePart)
  deriving Repr

/-- Effect of visiting one node on the (html, text) accumulator pair: a
matching node with truthy body data assigns — unconditionally — into the
shared accumulator. -/
def extractAtNode (acc : String × String) (mime : String)
    (d : Option String) : String × String :=
  if mime == "text/html" && truthyS d then (decodeBase64 (d.getD ""), acc.2)
  else if mime == "text/plain" && truthyS d then (acc.1, decodeBase64 (d.getD ""))
  else acc

/-- `extractFromParts`, depth-first.  In the source the `html`/`text`
accumulators are closure variables shared by every recursive call, so the
recursion is accumulator-threading; the `html = html || nested.html`
merge line is a no-op because the nested call has already written the
same variables. -/
def extractFromParts (acc : String × String) :
    List MimePart → String × String
  | [] => acc
  | .node mime d sub :: ps =>
      extractFromParts (extractFromParts (extractAtNode acc mime d) sub) ps

/-- Does the second character list start with the first? -/
def listLeads : List Char → List Char → Bool
  | [], _ => true
  | _ :: _, [] => false
  | p :: ps, c :: cs => p == c && listLeads ps cs

/-- Does the character list contain the first list as a contiguous run? -/
def listHasSub (pat : List Char) : List Char → Bool
  | [] => listLeads pat []
  | c :: cs => listLeads pat (c :: cs) || listHasSub pat cs

/-- Substring test mirroring `value.includes('html')`. -/
def containsHtml (s : String) : Bool := listHasSub "html".data s.data

/-- `extractEmailBody`: walk the parts tree when present; otherwise
classify the direct body by the `content-type` header. -/
def extractEmailBody (payload : GmailPayload) : String × String :=
  match payload.parts with
  | some ps => extractFromParts ("", "") ps
  | none =>
    if truthyS payload.data then
      if payload.headers.any
          (fun h => lowerStr h.name == "content-type" && containsHtml h.value) then
        (decodeBase64 (payload.data.getD ""), "")
      else ("", decodeBase64 (payload.data.getD ""))
    else ("", "")

/-- Decoded html bodies of the matching nodes of a forest, in the
depth-first visit order of `extractFromParts`. -/
def htmlMatches : List MimePart → List String
  | [] => []
  | .node mime d sub :: ps =>
      (if mime == "text/html" && truthyS d then [decodeBase64 (d.getD "")] else [])
        ++ htmlMatches sub ++ htmlMatches ps

/-- Decoded plain-text bodies of the matching nodes, in depth-first visit
order. -/
def textMatches : List MimePart → List String
  | [] => []
  | .node mime d sub :: ps =>
      (if !(mime == "text/html" && truthyS d) && mime == "text/plain" && truthyS d
        then [decodeBase64 (d.getD "")] else [])
        ++ textMatches sub ++ textMatches ps

/-! ### Gmail message shape -/

/-- A fetched Gmail message.  `internalDate` is the `parseInt` of the raw
string (`none` models `NaN`, which poisons every `new Date(...)` write of
the message). -/
structure GMessage where
  id : String
  threadId : String
  internalDate : Option Nat
  labelIds : Option (List String)
  payload : GmailPayload
  snippet : String
  deriving Repr

/-- `message.labelIds?.includes(l) ?? false`. -/
def hasLabel (m : GMessage) (l : String) : Bool := (m.labelIds.getD []).contains l

/-! ### Message fetcher -/

/-- One page of the id listing: ordered ids plus optional continuation. -/
structure PageResult where
  ids : List String
  next : Option String
  deriving Repr, DecidableEq

/-- One history record: ids of `messagesAdded[].message?.id` and of the
general `messages[].id` list (each possibly absent). -/
structure HistoryRecord where
  messagesAdded : Option (List (Option String))
  messages : Option (List (Option String))
  deriving Repr, DecidableEq

/-- The upstream mail API, per §6: paged id listing (page size, token),
per-attempt full-message retrieval, and the history listing.  The id and
history listings are modelled as succeeding (their retry wrapper passes a
first success straight through); per-message `get` keeps the attempt
index so the backoff wrapper around it is exercised. -/
structure Upstream where
  listPage : Nat → Option String → PageResult
  get : String → Nat → FetchResult GMessage
  history : String → List HistoryRecord

/-- One message fetch: `retryWithBackoff` around `users.messages.get`
with the default budget, as in `fetchMessagesBatch`. -/
def fetchOne (up : Upstream) (id : String) : Except GmailApiError GMessage :=
  (retryWithBackoff (up.get id)).result

/-- `Promise.all` over already-settled outcomes: first rejection wins,
otherwise the values in order. -/
def promiseAll : List (Except GmailApiError α) → Except GmailApiError (List α)
  | [] => .ok []
  | .error e :: _ => .error e
  | .ok v :: rs => (promiseAll rs).map (fun vs => v :: vs)

/-- Fuel-driven chunking of a list into consecutive batches of `bs`.
The fuel is the list length, enough whenever `bs ≥ 1`; the source loop
(`i += batchSize`) never terminates for `bs = 0`, a case no theorem
below uses. -/
def chunkGo (bs : Nat) : Nat → List α → List (List α)
  | _, [] => []
  | 0, xs => [xs]
  | f + 1, x :: xs =>
    match bs with
    | 0 => [x :: xs]
    | b + 1 => (x :: xs.take b) :: chunkGo bs f (xs.drop b)

/-- `messageIds.slice(i, i + batchSize)` batching. -/
def chunkList (bs : Nat) (xs : List α) : List (List α) := chunkGo bs xs.length xs

/-- Observable result of `fetchMessagesBatch`: the joined outcome, the
ids for which a fetch was started, and how many 100 ms inter-batch
sleeps happened. -/
structure BatchFetch where
  result : Except GmailApiError (List GMessage)
  calls : List String
  delays : Nat
  deriving Repr

/-- Sequential processing of the batches: each batch's fetches are joined
by `Promise.all`; a rejection aborts the whole call; a 100 ms sleep runs
between successive batches (`if (i + batchSize < messageIds.length)`). -/
def runBatches (up : Upstream) : List (List String) → BatchFetch
  | [] => ⟨.ok [], [], 0⟩
  | c :: rest =>
    match promiseAll (c.map (fetchOne up)) with
    | .error e => ⟨.error e, c, 0⟩
    | .ok msgs =>
      match rest with
      | [] => ⟨.ok msgs, c, 0⟩
      | _ :: _ =>
        let r := runBatches up rest
        ⟨r.result.map (fun ms => msgs ++ ms), c ++ r.calls, r.delays + 1⟩

/-- `fetchMessagesBatch(gmail, messageIds, batchSize = 10)`. -/
def fetchMessagesBatch (up : Upstream) (messageIds : List String)
    (batchSize : Nat := 10) : BatchFetch :=
  runBatches up (chunkList batchSize messageIds)

/-! ### Relational store -/

/-- A connected provider account row. -/
structure AccountRow where
  userId : String
  provider : String
  accessToken : Option String
  email : Option String
  deriving Repr, DecidableEq

/-- An `EmailThread` row.  `isRead`/`isStarred`/`isImportant` default to
`false` in the schema when a create omits them. -/
structure ThreadRow where
  id : Nat
  userId : String
  gmailThreadId : String
  subject : String
  lastMessageAt : Nat
  snippet : String
  isRead : Bool
  isStarred : Bool
  isImportant : Bool
  deriving Repr, DecidableEq

/-- An `EmailMessage` row, unique per (userId, gmailMessageId). -/
structure MessageRow where
  userId : String
  threadId : Nat
  gmailMessageId : String
  internalDate : Nat
  fromA : String
  toA : String
  cc : String
  bcc : String
  subject : String
  snippet : String
  textPlain : String
  deriving Repr, DecidableEq

/-- A `GmailSyncState` row, unique per (userId, provider, email). -/
structure SyncStateRow where
  userId : String
  provider : String
  email : String
  historyId : Option String
  lastFullSync : Option Nat
  lastDeltaSync : Option Nat
  deriving Repr, DecidableEq

/-- The relational store.  `nextThreadId` supplies fresh surrogate ids. -/
structure Db where
  accounts : List AccountRow
  threads : List ThreadRow
  messages : List MessageRow
  syncStates : List SyncStateRow
  nextThreadId : Nat
  deriving Repr, DecidableEq

/-- `emailThread.findFirst({ where: { userId, gmailThreadId } })`. -/
def findThread (db : Db) (u tid : String) : Option ThreadRow :=
  db.threads.find? (fun t => t.userId == u && t.gmailThreadId == tid)

/-- `emailThread.update({ where: { id } })`: the id column is unique, so
a key-preserving map touches exactly the addressed row. -/
def updateThreadRow (db : Db) (rid : Nat) (f : ThreadRow → ThreadRow) : Db :=
  { db with threads := db.threads.map (fun t => if t.id == rid then f t else t) }

/-- `emailMessage.findFirst` by the (userId, gmailMessageId) unique key
(the `upsert` lookup). -/
def findMessage (db : Db) (u mid : String) : Option MessageRow :=
  db.messages.find? (fun r => r.userId == u && r.gmailMessageId == mid)

/-- Update of the message row addressed by its unique key. -/
def updateMessageRow (db : Db) (u mid : String) (f : MessageRow → MessageRow) : Db :=
  { db with messages :=
      db.messages.map (fun r => if r.userId == u && r.gmailMessageId == mid then f r else r) }

/-! ### Persistence upserter -/

/-- The `emailThread.update` data of the full/delta/history paths:
flags derived from the labels (`isImportant` untouched), plus
`lastMessageAt` and snippet. -/
def threadFlagsBasic (m : GMessage) (date : Nat) (tr : ThreadRow) : ThreadRow :=
  { tr with isRead := !(hasLabel m "UNREAD"), isStarred := hasLabel m "STARRED",
            lastMessageAt := date, snippet := m.snippet }

/-- The `emailThread.update` data of the paginated paths: all three
derived flags, plus `lastMessageAt` and snippet. -/
def threadFlagsPaginated (m : GMessage) (date : Nat) (tr : ThreadRow) : ThreadRow :=
  { tr with isRead := !(hasLabel m "UNREAD"), isStarred := hasLabel m "STARRED",
            isImportant := hasLabel m "IMPORTANT",
            lastMessageAt := date, snippet := m.snippet }

/-- The nested `thread.update` data inside the message upsert of
`syncUserEmails`: derived `isRead`/`isStarred` only. -/
def nestedFlagsBasic (m : GMessage) (tr : ThreadRow) : ThreadRow :=
  { tr with isRead := !(hasLabel m "UNREAD"), isStarred := hasLabel m "STARRED" }

/-- The nested `thread.update` data of the paginated paths. -/
def nestedFlagsPaginated (m : GMessage) (tr : ThreadRow) : ThreadRow :=
  { tr with isRead := !(hasLabel m "UNREAD"), isStarred := hasLabel m "STARRED",
            isImportant := hasLabel m "IMPORTANT" }

/-- The message upsert's conflict `update` data: snippet only. -/
def msgSnippetUpd (m : GMessage) (row : MessageRow) : MessageRow :=
  { row with snippet := m.snippet }

/-- Thread reconcile step of `syncUserEmails` / delta / history sync:
derives `isUnread`/`isStarred` (these paths never touch `isImportant`),
updates flags, `lastMessageAt` and snippet on an existing thread — its
subject is left alone — or creates the thread; returns the thread row id
the message will attach to. -/
def threadStepBasic (u : String) (m : GMessage) (date : Nat) (db : Db) :
    Db × Nat :=
  match findThread db u m.threadId with
  | some t => (updateThreadRow db t.id (threadFlagsBasic m date), t.id)
  | none =>
    let t : ThreadRow :=
      ⟨db.nextThreadId, u, m.threadId, (parseEmailHeaders m.payload.headers).subject,
        date, m.snippet, !(hasLabel m "UNREAD"), hasLabel m "STARRED", false⟩
    ({ db with threads := db.threads ++ [t], nextThreadId := db.nextThreadId + 1 }, t.id)

/-- Thread reconcile step of the paginated sync paths, which additionally
derive and write `isImportant`. -/
def threadStepPaginated (u : String) (m : GMessage) (date : Nat) (db : Db) :
    Db × Nat :=
  match findThread db u m.threadId with
  | some t => (updateThreadRow db t.id (threadFlagsPaginated m date), t.id)
  | none =>
    let t : ThreadRow :=
      ⟨db.nextThreadId, u, m.threadId, (parseEmailHeaders m.payload.headers).subject,
        date, m.snippet, !(hasLabel m "UNREAD"), hasLabel m "STARRED",
        hasLabel m "IMPORTANT"⟩
    ({ db with threads := db.threads ++ [t], nextThreadId := db.nextThreadId + 1 }, t.id)

/-- The full `create` payload of the message upsert. -/
def messageCreateRow (u : String) (m : GMessage) (date tid : Nat) : MessageRow :=
  let h := parseEmailHeaders m.payload.headers
  ⟨u, tid, m.id, date, h.fromA, h.toA, h.cc, h.bcc, h.subject, m.snippet,
    (extractEmailBody m.payload).2⟩

/-- Message upsert of `syncUserEmails`: on conflict, refresh only the
snippet and push `isRead`/`isStarred` onto the existing row's parent
thread (nested `thread.update`); on miss, create the full row. -/
def upsertMessageFull (u : String) (m : GMessage) (date tid : Nat) (db : Db) : Db :=
  match findMessage db u m.id with
  | some r =>
    updateThreadRow (updateMessageRow db u m.id (msgSnippetUpd m)) r.threadId
      (nestedFlagsBasic m)
  | none => { db with messages := db.messages ++ [messageCreateRow u m date tid] }

/-- Message upsert of the paginated sync paths: the nested thread update
also pushes `isImportant`. -/
def upsertMessagePaginated (u : String) (m : GMessage) (date tid : Nat) (db : Db) : Db :=
  match findMessage db u m.id with
  | some r =>
    updateThreadRow (updateMessageRow db u m.id (msgSnippetUpd m)) r.threadId
      (nestedFlagsPaginated m)
  | none => { db with messages := db.messages ++ [messageCreateRow u m date tid] }

/-- Message upsert of the delta/history sync paths: on conflict only the
snippet is refreshed (no nested thread update). -/
def upsertMessageHistory (u : String) (m : GMessage) (date tid : Nat) (db : Db) : Db :=
  match findMessage db u m.id with
  | some _ => updateMessageRow db u m.id (msgSnippetUpd m)
  | none => { db with messages := db.messages ++ [messageCreateRow u m date tid] }

/-- Per-message processing of `syncUserEmails`.  A message whose
`internalDate` failed to parse makes its first row write throw
(`new Date(NaN)` is rejected at the thread write, before anything of the
message is persisted); the catch counts it and moves on, so the result is
the untouched store and `false`. -/
def processMessageFull (u : String) (m : GMessage) (db : Db) : Db × Bool :=
  match m.internalDate with
  | none => (db, false)
  | some date =>
    let s := threadStepBasic u m date db
    (upsertMessageFull u m date s.2 s.1, true)

/-- Per-message processing of the paginated sync paths. -/
def processMessagePaginated (u : String) (m : GMessage) (db : Db) : Db × Bool :=
  match m.internalDate with
  | none => (db, false)
  | some date =>
    let s := threadStepPaginated u m date db
    (upsertMessagePaginated u m date s.2 s.1, true)

/-- Per-message processing of the history sync path. -/
def processMessageHistory (u : String) (m : GMessage) (db : Db) : Db × Bool :=
  match m.internalDate with
  | none => (db, false)
  | some date =>
    let s := threadStepBasic u m date db
    (upsertMessageHistory u m date s.2 s.1, true)

/-- Loop body of the per-message try/catch of `syncUserEmails`: the
running (store, synced, errors) accumulator after one message. -/
def processStepFull (u : String) (acc : Db × Nat × Nat) (m : GMessage) :
    Db × Nat × Nat :=
  let r := processMessageFull u m acc.1
  (r.1, if r.2 then acc.2.1 + 1 else acc.2.1,
    if r.2 then acc.2.2 else acc.2.2 + 1)

/-- One transaction of `syncUserEmails`: per-message try/catch, counting
successes and failures, one bad message never aborting its siblings. -/
def processBatchFull (u : String) (msgs : List GMessage) (db : Db) :
    Db × Nat × Nat :=
  msgs.foldl (processStepFull u) (db, 0, 0)

/-- Loop body of the history path's per-message try/catch. -/
def processStepHistory (u : String) (acc : Db × Nat × Nat) (m : GMessage) :
    Db × Nat × Nat :=
  let r := processMessageHistory u m acc.1
  (r.1, if r.2 then acc.2.1 + 1 else acc.2.1,
    if r.2 then acc.2.2 else acc.2.2 + 1)

/-- The history path's single processing transaction. -/
def processBatchHistory (u : String) (msgs : List GMessage) (db : Db) :
    Db × Nat × Nat :=
  msgs.foldl (processStepHistory u) (db, 0, 0)

/-- Per-chunk accumulation of step 2 of `syncUserEmails`. -/
def processChunkStepFull (u : String) (acc : Db × Nat × Nat)
    (chunk : List GMessage) : Db × Nat × Nat :=
  let r := processBatchFull u chunk acc.1
  (r.1, acc.2.1 + r.2.1, acc.2.2 + r.2.2)

/-- Step 2 of `syncUserEmails`: the fetched messages are persisted in
chunks of `BATCH_SIZE = 10`, one transaction per chunk, accumulating the
synced/error counters across chunks. -/
def processAllFull (u : String) (msgs : List GMessage) (db : Db) :
    Db × Nat × Nat :=
  (chunkList 10 msgs).foldl (processChunkStepFull u) (db, 0, 0)

/-! ### Sync orchestrator -/

/-- Failure classes of a sync call: missing credentials (configuration)
or an upstream API error that exhausted its retries. -/
inductive SyncError where
  | config
  | api (e : GmailApiError)
  deriving Repr, DecidableEq

/-- The `{ synced, errors, totalPages }` result shape. -/
structure SyncResultR where
  synced : Nat
  errors : Nat
  totalPages : Nat
  deriving Repr, DecidableEq

/-- Why the full-sync page loop stopped. -/
inductive ExitReason where
  | emptyPage
  | noToken
  | ceiling
  deriving Repr, DecidableEq

/-- Observable outcome of the full-sync fetch loop: the accumulated
messages, the final `pageCount`, how many non-empty pages were consumed,
and why the loop stopped. -/
structure LoopOut where
  msgs : List GMessage
  pages : Nat
  nonEmptyPages : Nat
  reason : ExitReason
  deriving Repr

/-- The `do … while (nextPageToken && pageCount < maxPages)` fetch loop
of `syncUserEmails`, fuel-structured for kernel evaluation; fuel
`maxPages + 1` always suffices because `pageCount` grows by one per
iteration and the guard stops at `maxPages`. -/
def syncLoopGo (up : Upstream) (mpp : Nat) :
    Nat → Option String → Nat → Nat → Except GmailApiError LoopOut
  | 0, _, pageCount, _ => .ok ⟨[], pageCount, 0, .emptyPage⟩
  | fuel + 1, tok, pageCount, maxPages =>
    let pc := pageCount + 1
    let pr := up.listPage mpp tok
    if pr.ids.isEmpty then .ok ⟨[], pc, 0, .emptyPage⟩
    else
      match (fetchMessagesBatch up pr.ids 10).result with
      | .error e => .error e
      | .ok msgs =>
        match pr.next with
        | none => .ok ⟨msgs, pc, 1, .noToken⟩
        | some t =>
          if pc < maxPages then
            match syncLoopGo up mpp fuel (some t) pc maxPages with
            | .error e => .error e
            | .ok r => .ok ⟨msgs ++ r.msgs, r.pages, r.nonEmptyPages + 1, r.reason⟩
          else .ok ⟨msgs, pc, 1, .ceiling⟩

/-- Step 1 of `syncUserEmails`: fetch every page of ids and all their
messages before any persistence happens. -/
def syncFetchLoop (up : Upstream) (mpp maxPages : Nat) :
    Except GmailApiError LoopOut :=
  syncLoopGo up mpp (maxPages + 1) none 0 maxPages

/-- `account.findFirst({ where: { userId, provider: 'google' } })`. -/
def findGoogleAccount (db : Db) (u : String) : Option AccountRow :=
  db.accounts.find? (fun a => a.userId == u && a.provider == "google")

/-- Mailbox address used for the sync-state key, with the
`'unknown@gmail.com'` fallback. -/
def accountEmail (db : Db) (u : String) : String :=
  (((findGoogleAccount db u).bind (fun a => a.email))).getD "unknown@gmail.com"

/-- `gmailSyncState.findFirst` by its composite unique key. -/
def findSyncState (db : Db) (u prov em : String) : Option SyncStateRow :=
  db.syncStates.find?
    (fun s => s.userId == u && s.provider == prov && s.email == em)

/-- Sync-state upsert of the full sync: write `lastFullSync`. -/
def upsertSyncStateFull (db : Db) (u em : String) (now : Nat) : Db :=
  match findSyncState db u "google" em with
  | some _ =>
    { db with syncStates := db.syncStates.map (fun s =>
        if s.userId == u && s.provider == "google" && s.email == em then
          { s with lastFullSync := some now } else s) }
  | none =>
    { db with syncStates := db.syncStates ++ [⟨u, "google", em, none, some now, none⟩] }

/-- Sync-state upsert of the history sync: store the caller-supplied
cursor and stamp `lastDeltaSync`. -/
def upsertSyncStateHistory (db : Db) (u em hid : String) (now : Nat) : Db :=
  match findSyncState db u "google" em with
  | some _ =>
    { db with syncStates := db.syncStates.map (fun s =>
        if s.userId == u && s.provider == "google" && s.email == em then
          { s with historyId := some hid, lastDeltaSync := some now } else s) }
  | none =>
    { db with syncStates := db.syncStates ++ [⟨u, "google", em, some hid, none, some now⟩] }

/-- `syncUserEmails(userId, maxPages = 5, messagesPerPage = 100)`.
The pair carries the store alongside the call outcome: an exception
leaves whatever was already committed (here: nothing, since every page is
fetched before any persistence and the fetch phase never writes). -/
def syncUserEmails (db : Db) (up : Upstream) (now : Nat) (userId : String)
    (maxPages : Nat := 5) (messagesPerPage : Nat := 100) :
    Except SyncError SyncResultR × Db :=
  match findGoogleAccount db userId with
  | none => (.error .config, db)
  | some a =>
    if a.accessToken.isNone then (.error .config, db)
    else
      match syncFetchLoop up messagesPerPage maxPages with
      | .error e => (.error (.api e), db)
      | .ok lo =>
        let r := processAllFull userId lo.msgs db
        let db2 := upsertSyncStateFull r.1 userId (accountEmail r.1 userId) now
        (.ok ⟨r.2.1, r.2.2, lo.pages⟩, db2)

/-- The dedicated added-list collection: every present
`messageAdded.message?.id` is pushed, with no duplicate check. -/
def collectAdded (acc : List String) : List (Option String) → List String
  | [] => acc
  | some i :: rest => collectAdded (acc ++ [i]) rest
  | none :: rest => collectAdded acc rest

/-- The fallback general list: a present id is pushed only if not already
collected (`!messageIds.includes(message.id)`). -/
def collectGeneral (acc : List String) : List (Option String) → List String
  | [] => acc
  | some i :: rest =>
      collectGeneral (if acc.contains i then acc else acc ++ [i]) rest
  | none :: rest => collectGeneral acc rest

/-- Message-id collection of `syncUserEmailsByHistory` over the history
records, added-list first, then the de-duplicated general list. -/
def collectHistoryIds (history : List HistoryRecord) : List String :=
  history.foldl (fun acc hr =>
    collectGeneral (collectAdded acc (hr.messagesAdded.getD []))
      (hr.messages.getD [])) []

/-- `syncUserEmailsByHistory(userId, startHistoryId)`: list the history
since the cursor, short-circuit success on zero records or zero ids —
before any store write — else fetch, persist, and finally store the
caller-supplied cursor and stamp `lastDeltaSync`. -/
def syncUserEmailsByHistory (db : Db) (up : Upstream) (now : Nat)
    (userId startHistoryId : String) : Except SyncError SyncResultR × Db :=
  match findGoogleAccount db userId with
  | none => (.error .config, db)
  | some a =>
    if a.accessToken.isNone then (.error .config, db)
    else
      let history := up.history startHistoryId
      if history.isEmpty then (.ok ⟨0, 0, 0⟩, db)
      else
        let ids := collectHistoryIds history
        if ids.isEmpty then (.ok ⟨0, 0, 0⟩, db)
        else
          match (fetchMessagesBatch up ids 10).result with
          | .error e => (.error (.api e), db)
          | .ok msgs =>
            let r := processBatchHistory userId msgs db
            let db2 :=
              upsertSyncStateHistory r.1 userId (accountEmail r.1 userId)
                startHistoryId now
            (.ok ⟨r.2.1, r.2.2, 1⟩, db2)

/-! ### Observations used by the statements -/

/-- Number of `EmailMessage` rows carrying a given (user, upstream id)
key. -/
def countMsg (db : Db) (u mid : String) : Nat :=
  db.messages.countP (fun r => r.userId == u && r.gmailMessageId == mid)

/-- Expected sleeps of `k` consecutive retried failures starting at
attempt index `a`, when attempt `j` fails with error `es j`. -/
def delaysFor (base : Nat) (es : Nat → GmailApiError) (a : Nat) : Nat → List Nat
  | 0 => []
  | k + 1 => backoffDelay base a (es a) :: delaysFor base es (a + 1) k

/-- Identity of a thread row: everything a sync-pass update is *not*
allowed to rewrite on an existing thread (in particular its subject). -/
def threadKey (t : ThreadRow) : Nat × String × String × String :=
  (t.id, t.userId, t.gmailThreadId, t.subject)

/-! ### Concrete scenarios -/

/-- A rate-limit error without a retry-after hint. -/
def e429 : GmailApiError := ⟨some 429, none⟩

/-- A server error without a retry-after hint. -/
def e500 : GmailApiError := ⟨some 500, none⟩

/-- A client error: not retryable. -/
def e404 : GmailApiError := ⟨some 404, none⟩

/-- A message labelled UNREAD and IMPORTANT, with a plain header-only
payload. -/
def mPlain : GMessage :=
  ⟨"m1", "t1", some 1000, some ["UNREAD", "IMPORTANT"],
    ⟨[⟨"Subject", "hello"⟩, ⟨"From", "a@b.c"⟩], none, none⟩, "snip"⟩

/-- An unlabelled message on the same thread. -/
def mOk : GMessage := ⟨"m2", "t1", some 5, none, ⟨[], none, none⟩, "s2"⟩

/-- A re-sync variant of `mPlain`: same upstream message id and thread,
different labels and snippet. -/
def mPlain2 : GMessage :=
  ⟨"m1", "t1", some 1000, some ["STARRED"], ⟨[], none, none⟩, "snip2"⟩

/-- A store holding one connected Google account and nothing else. -/
def db0 : Db := ⟨[⟨"u", "google", some "tok", some "u@gmail.com"⟩], [], [], [], 0⟩

/-- An upstream whose single page lists two ids, where the fetch of id
`a` always fails with a server error and the fetch of id `b` succeeds. -/
def upFail : Upstream :=
  ⟨fun _ tok => match tok with
    | none => ⟨["a", "b"], none⟩
    | some _ => ⟨[], none⟩,
   fun id _ => if id == "a" then .err e500 else .ok mPlain,
   fun _ => []⟩

/-- A mock upstream serving pages of sizes 100, 100, 37 and 0, every
message fetch succeeding, and an empty history. -/
def upPages : Upstream :=
  ⟨fun _ tok => match tok with
    | none => ⟨List.replicate 100 "x", some "p2"⟩
    | some "p2" => ⟨List.replicate 100 "x", some "p3"⟩
    | some "p3" => ⟨List.replicate 37 "x", some "p4"⟩
    | some _ => ⟨[], none⟩,
   fun _ _ => .ok mOk,
   fun _ => []⟩

/-- A store holding one account and one existing thread for the
(u, t1) key. -/
def dbT : Db := ⟨[⟨"u", "google", some "tok", some "u@gmail.com"⟩],
  [⟨0, "u", "t1", "subj", 1, "s0", true, false, false⟩], [], [], 1⟩

/-- An upstream returning one non-empty page with no continuation
token. -/
def upNoTok : Upstream :=
  ⟨fun _ tok => match tok with
    | none => ⟨["a", "b"], none⟩
    | some _ => ⟨[], none⟩,
   fun _ _ => .ok mOk,
   fun _ => []⟩

/-! ## Backoff executor lemmas -/

theorem retryGo_ok {α : Type} (fn : Nat → FetchResult α) (base a r : Nat) (v : α)
    (h : fn a = .ok v) : retryGo fn base a r = ⟨.ok v, 1, []⟩ := by
  cases r <;> simp only [retryGo, h]

theorem retryGo_stop {α : Type} (fn : Nat → FetchResult α) (base a r : Nat)
    (e : GmailApiError) (h : fn a = .err e) (hr : r = 0 ∨ isRetryable e = false) :
    retryGo fn base a r = ⟨.error e, 1, []⟩ := by
  cases r with
  | zero => simp only [retryGo, h]
  | succ r =>
    rcases hr with hr | hr
    · exact absurd hr (by omega)
    · simp only [retryGo, h, hr]
      simp

theorem delaysFor_eq_map (base : Nat) (es : Nat → GmailApiError) (k : Nat) :
    ∀ a, delaysFor base es a k =
      (List.range k).map (fun j => backoffDelay base (a + j) (es (a + j))) := by
  induction k with
  | zero => intro a; simp [delaysFor]
  | succ k ih =>
    intro a
    rw [List.range_succ_eq_map]
    simp only [delaysFor, List.map_cons, Nat.add_zero, List.map_map]
    refine congrArg₂ _ rfl ?_
    rw [ih (a + 1)]
    refine List.map_congr_left (fun j _ => ?_)
    have hx : a + 1 + j = a + (j + 1) := by omega
    simp [Function.comp, hx, Nat.succ_eq_add_one]

theorem retryGo_shift {α : Type} (fn : Nat → FetchResult α) (base : Nat)
    (es : Nat → GmailApiError) (k : Nat) :
    ∀ (a r : Nat),
      (∀ j, j < k → fn (a + j) = .err (es (a + j)) ∧ isRetryable (es (a + j)) = true) →
      retryGo fn base a (k + r) =
        ⟨(retryGo fn base (a + k) r).result,
         (retryGo fn base (a + k) r).attempts + k,
         delaysFor base es a k ++ (retryGo fn base (a + k) r).delays⟩ := by
  induction k with
  | zero => intro a r _; simp [delaysFor]
  | succ k ih =>
    intro a r hf
    have h0 := hf 0 (Nat.succ_pos k)
    rw [Nat.add_zero] at h0
    have hstep : k + 1 + r = (k + r) + 1 := by omega
    rw [hstep]
    simp only [retryGo, h0.1, h0.2, if_true]
    have ihr := ih (a + 1) r (fun j hj => by
      have hh := hf (j + 1) (by omega)
      have hx : a + (j + 1) = a + 1 + j := by omega
      rw [hx] at hh
      exact hh)
    rw [ihr]
    have hidx : a + 1 + k = a + (k + 1) := by omega
    rw [hidx]
    simp [delaysFor, Nat.add_assoc]

theorem retryGo_attempts_le {α : Type} (fn : Nat → FetchResult α) (base r : Nat) :
    ∀ a, (retryGo fn base a r).attempts ≤ r + 1 := by
  induction r with
  | zero =>
    intro a
    cases h : fn a with
    | ok v => simp [retryGo_ok fn base a 0 v h]
    | err e => simp [retryGo_stop fn base a 0 e h (Or.inl rfl)]
  | succ r ih =>
    intro a
    cases h : fn a with
    | ok v => simp [retryGo_ok fn base a (r + 1) v h]
    | err e =>
      by_cases hr : isRetryable e = true
      · simp only [retryGo, h, hr, if_true]
        have := ih (a + 1)
        omega
      · simp [retryGo_stop fn base a (r + 1) e h (Or.inr (by simpa using hr))]

theorem delaysFor_zero_eq (base : Nat) (es : Nat → GmailApiError) (k : Nat) :
    delaysFor base es 0 k =
      (List.range k).map (fun j => backoffDelay base j (es j)) := by
  rw [delaysFor_eq_map]
  exact List.map_congr_left (fun j _ => by rw [Nat.zero_add])

theorem retryGo_from_zero {α : Type} (fn : Nat → FetchResult α) (base : Nat)
    (es : Nat → GmailApiError) (k r : Nat)
    (hf : ∀ j, j < k → fn j = .err (es j) ∧ isRetryable (es j) = true) :
    retryGo fn base 0 (k + r) =
      ⟨(retryGo fn base k r).result, (retryGo fn base k r).attempts + k,
        ((List.range k).map (fun j => backoffDelay base j (es j))) ++
          (retryGo fn base k r).delays⟩ := by
  have h := retryGo_shift fn base es k 0 r
    (fun j hj => by simpa [Nat.zero_add] using hf j hj)
  rw [Nat.zero_add] at h
  rw [h, delaysFor_zero_eq]

/-- C2: the backoff executor attempts the operation at most
`maxRetries + 1` times; after a failure whose status is 429 or ≥ 500
with attempts remaining it sleeps the upstream retry-after hint
(seconds converted to ms) when present, else `baseDelay * 2 ^ attempt`
ms, then retries; a failure with any other status propagates
immediately, with no further attempt and no sleep; and once the attempt
budget is exhausted the last error propagates. -/
theorem retryWithBackoff_spec {α : Type} (fn : Nat → FetchResult α)
    (maxRetries baseDelay : Nat) :
    (retryWithBackoff fn maxRetries baseDelay).attempts ≤ maxRetries + 1 ∧
    (∀ (k : Nat) (v : α) (es : Nat → GmailApiError), k ≤ maxRetries →
      (∀ j, j < k → fn j = .err (es j) ∧ isRetryable (es j) = true) →
      fn k = .ok v →
      retryWithBackoff fn maxRetries baseDelay =
        ⟨.ok v, k + 1, (List.range k).map (fun j => backoffDelay baseDelay j (es j))⟩) ∧
    (∀ (k : Nat) (e : GmailApiError) (es : Nat → GmailApiError), k ≤ maxRetries →
      (∀ j, j < k → fn j = .err (es j) ∧ isRetryable (es j) = true) →
      fn k = .err e → isRetryable e = false →
      retryWithBackoff fn maxRetries baseDelay =
        ⟨.error e, k + 1, (List.range k).map (fun j => backoffDelay baseDelay j (es j))⟩) ∧
    (∀ es : Nat → GmailApiError,
      (∀ a, a ≤ maxRetries → fn a = .err (es a) ∧ isRetryable (es a) = true) →
      retryWithBackoff fn maxRetries baseDelay =
        ⟨.error (es maxRetries), maxRetries + 1,
          (List.range maxRetries).map (fun j => backoffDelay baseDelay j (es j))⟩) := by
  refine ⟨retryGo_attempts_le fn baseDelay maxRetries 0, ?_, ?_, ?_⟩
  · intro k v es hk hf hok
    have hm : maxRetries = k + (maxRetries - k) := by omega
    rw [retryWithBackoff, hm, retryGo_from_zero fn baseDelay es k (maxRetries - k) hf,
      retryGo_ok fn baseDelay k (maxRetries - k) v hok]
    simp [Nat.add_comm]
  · intro k e es hk hf herr hnr
    have hm : maxRetries = k + (maxRetries - k) := by omega
    rw [retryWithBackoff, hm, retryGo_from_zero fn baseDelay es k (maxRetries - k) hf,
      retryGo_stop fn baseDelay k (maxRetries - k) e herr (Or.inr hnr)]
    simp [Nat.add_comm]
  · intro es hall
    have hf : ∀ j, j < maxRetries → fn j = .err (es j) ∧ isRetryable (es j) = true :=
      fun j hj => hall j (by omega)
    have hlast := hall maxRetries (le_refl _)
    have h := retryGo_from_zero fn baseDelay es maxRetries 0 hf
    rw [Nat.add_zero] at h
    rw [retryWithBackoff, h,
      retryGo_stop fn baseDelay maxRetries 0 (es maxRetries) hlast.1 (Or.inl rfl)]
    simp [Nat.add_comm]

/-- Witness for C2: an operation failing with a bare 429 on every
attempt, budget 2, base delay 1000 ms: three attempts, sleeps of 1000 ms
and 2000 ms, final error propagated. -/
theorem retryWithBackoff_spec_witness :
    retryWithBackoff (fun _ => (.err e429 : FetchResult Nat)) 2 1000 =
      ⟨.error e429, 3, [1000, 2000]⟩ := by
  have h := (retryWithBackoff_spec (fun _ => (.err e429 : FetchResult Nat)) 2 1000).2.2.2
    (fun _ => e429) (fun a _ => ⟨rfl, rfl⟩)
  rw [h]
  rfl

/-! ## Content parser lemmas -/

theorem or_getD {α : Type} (a b : Option α) (d : α) :
    (a.or b).getD d = a.getD (b.getD d) := by
  cases a <;> cases b <;> rfl

theorem getD_getLast?_cons {α : Type} (l : List α) :
    ∀ (x d : α), (x :: l).getLast?.getD d = l.getLast?.getD x := by
  induction l with
  | nil => intro x d; rfl
  | cons y l ih =>
    intro x d
    rw [List.getLast?_cons_cons, ih y d, ih y x]

theorem getLastD_append {α : Type} (l1 l2 : List α) (d : α) :
    (l1 ++ l2).getLastD d = l2.getLastD (l1.getLastD d) := by
  simp [List.getLast?_append, or_getD]

theorem extractFromParts_eq (acc : String × String) (ps : List MimePart) :
    extractFromParts acc ps =
      ((htmlMatches ps).getLastD acc.1, (textMatches ps).getLastD acc.2) := by
  induction acc, ps using extractFromParts.induct with
  | case1 acc => simp [extractFromParts, htmlMatches, textMatches]
  | case2 acc mime d sub ps ih1 ih2 =>
    rw [extractFromParts, ih2, ih1]
    by_cases h1 : (mime == "text/html" && truthyS d) = true
    · simp [htmlMatches, textMatches, extractAtNode, h1, List.getLast?_append,
        or_getD, getD_getLast?_cons]
    · by_cases h2 : (mime == "text/plain" && truthyS d) = true
      · simp [htmlMatches, textMatches, extractAtNode, h1, h2, List.getLast?_append,
          or_getD, getD_getLast?_cons]
      · simp [htmlMatches, textMatches, extractAtNode, h1, h2, List.getLast?_append,
          or_getD, getD_getLast?_cons]

/-- C9: body extraction is a pure deterministic function — the same part
tree always yields the same (html, text) pair — and a payload whose
parts list contains exactly one top-level text/plain part with body
data X yields text = decode X and html = "". -/
theorem extractEmailBody_pure (p : GmailPayload) (hs : List EmailHeader)
    (bd : Option String) (X : String) :
    extractEmailBody p = extractEmailBody p ∧
    extractEmailBody ⟨hs, bd, some [.node "text/plain" (some X) []]⟩ =
      ("", decodeBase64 X) := by
  refine ⟨rfl, ?_⟩
  by_cases hX : X = ""
  · subst hX
    simp [extractEmailBody, extractFromParts, extractAtNode, truthyS]
    decide
  · simp [extractEmailBody, extractFromParts, extractAtNode, truthyS, hX]

/-- Counterexample to C4: a parts list with two sibling text/html
bodies.  The walker's shared accumulator is overwritten by the second
match, so the extracted html is the second body, not the first-found
one. -/
theorem extract_overwrite_counterexample :
    extractEmailBody ⟨[], none, some [.node "text/html" (some "Zmlyc3Q=") [],
        .node "text/html" (some "c2Vjb25k") []]⟩ = ("second", "") ∧
    decodeBase64 "Zmlyc3Q=" = "first" ∧ ("second" : String) ≠ "first" := by
  refine ⟨?_, by decide, by decide⟩
  simp [extractEmailBody, extractFromParts, extractAtNode]
  decide

/-- C4 (amended): each matching node overwrites the shared accumulator,
so for every part tree the returned html (resp. text) is the last
matching body in the depth-first visit order, the initial value
surviving only when no node matches. -/
theorem extract_last_match_wins (payload : GmailPayload) (ps : List MimePart)
    (h : payload.parts = some ps) :
    extractEmailBody payload =
      ((htmlMatches ps).getLastD "", (textMatches ps).getLastD "") := by
  simp [extractEmailBody, h, extractFromParts_eq]

/-- Witness for the amended C4 at the two-sibling tree. -/
theorem extract_last_match_wins_witness :
    extractEmailBody ⟨[], none, some [.node "text/html" (some "Zmlyc3Q=") [],
        .node "text/html" (some "c2Vjb25k") []]⟩ =
      ((htmlMatches [.node "text/html" (some "Zmlyc3Q=") [],
          .node "text/html" (some "c2Vjb25k") []]).getLastD "",
        (textMatches [.node "text/html" (some "Zmlyc3Q=") [],
          .node "text/html" (some "c2Vjb25k") []]).getLastD "") :=
  extract_last_match_wins _ _ rfl


/-! ## Fetcher lemmas -/

theorem promiseAll_map_ok {α β : Type} (f : α → Except GmailApiError β)
    (g : α → β) : ∀ (c : List α), (∀ x ∈ c, f x = .ok (g x)) →
    promiseAll (c.map f) = .ok (c.map g) := by
  intro c
  induction c with
  | nil => intro _; rfl
  | cons x c ih =>
    intro h
    have hx := h x (List.mem_cons_self x c)
    simp only [List.map_cons, promiseAll, hx]
    rw [ih (fun y hy => h y (List.mem_cons_of_mem x hy))]
    rfl

theorem promiseAll_ok_mem {α : Type} :
    ∀ (rs : List (Except GmailApiError α)) (vs : List α),
      promiseAll rs = .ok vs → ∀ r ∈ rs, ∃ v, r = .ok v := by
  intro rs
  induction rs with
  | nil => intro vs _ r hr; cases hr
  | cons r0 rs ih =>
    intro vs hall r hr
    cases r0 with
    | error e => simp [promiseAll] at hall
    | ok v0 =>
      rcases List.mem_cons.mp hr with h0 | h0
      · exact ⟨v0, h0⟩
      · cases hps : promiseAll rs with
        | error e => rw [promiseAll, hps] at hall; cases hall
        | ok vs2 => exact ih vs2 hps r h0

theorem promiseAll_error_of_mem {α : Type} :
    ∀ (rs : List (Except GmailApiError α)),
      (∃ r ∈ rs, ∃ e, r = .error e) →
      ∃ e2, promiseAll rs = .error e2 := by
  intro rs
  induction rs with
  | nil => rintro ⟨r, hr, _⟩; cases hr
  | cons r0 rs ih =>
    rintro ⟨r, hr, e, he⟩
    cases r0 with
    | error e0 => exact ⟨e0, rfl⟩
    | ok v0 =>
      rcases List.mem_cons.mp hr with h0 | h0
      · rw [he] at h0; cases h0
      · obtain ⟨e2, he2⟩ := ih ⟨r, h0, e, he⟩
        refine ⟨e2, ?_⟩
        simp only [promiseAll]
        rw [he2]
        rfl

theorem chunkGo_flatten {α : Type} (bs : Nat) :
    ∀ (f : Nat) (xs : List α), (chunkGo bs f xs).flatten = xs := by
  intro f
  induction f with
  | zero =>
    intro xs
    cases xs with
    | nil => rfl
    | cons x xs => simp [chunkGo]
  | succ f ih =>
    intro xs
    cases xs with
    | nil => rfl
    | cons x xs =>
      cases bs with
      | zero => simp [chunkGo]
      | succ b => simp [chunkGo, ih]

theorem chunkList_flatten {α : Type} (bs : Nat) (xs : List α) :
    (chunkList bs xs).flatten = xs := chunkGo_flatten bs xs.length xs

theorem chunkGo_length_le {α : Type} (b : Nat) :
    ∀ (f : Nat) (xs : List α), xs.length ≤ f →
      ∀ c ∈ chunkGo (b + 1) f xs, c.length ≤ b + 1 := by
  intro f
  induction f with
  | zero =>
    intro xs hf c hc
    cases xs with
    | nil => cases hc
    | cons x xs => simp at hf
  | succ f ih =>
    intro xs hf c hc
    cases xs with
    | nil => cases hc
    | cons x xs =>
      simp only [chunkGo] at hc
      rcases List.mem_cons.mp hc with h0 | h0
      · subst h0
        simp only [List.length_cons]
        have := List.length_take_le b xs
        omega
      · refine ih (xs.drop b) ?_ c h0
        simp only [List.length_cons] at hf
        have := List.length_drop b xs
        omega

theorem runBatches_cons_eq (up : Upstream) (c : List String)
    (rest : List (List String)) :
    runBatches up (c :: rest) =
      match promiseAll (c.map (fetchOne up)) with
      | .error e => ⟨.error e, c, 0⟩
      | .ok msgs =>
        match rest with
        | [] => ⟨.ok msgs, c, 0⟩
        | _ :: _ =>
          ⟨(runBatches up rest).result.map (fun ms => msgs ++ ms),
            c ++ (runBatches up rest).calls, (runBatches up rest).delays + 1⟩ := by
  simp only [runBatches]

theorem runBatches_ok (up : Upstream) (mf : String → GMessage) :
    ∀ (chunks : List (List String)),
      (∀ id ∈ chunks.flatten, fetchOne up id = .ok (mf id)) →
      runBatches up chunks =
        ⟨.ok (chunks.flatten.map mf), chunks.flatten, chunks.length - 1⟩ := by
  intro chunks
  induction chunks with
  | nil => intro _; rfl
  | cons c rest ih =>
    intro h
    have hc : ∀ id ∈ c, fetchOne up id = .ok (mf id) :=
      fun id hid => h id (by rw [List.flatten_cons]; exact List.mem_append_left _ hid)
    have hrest : ∀ id ∈ rest.flatten, fetchOne up id = .ok (mf id) :=
      fun id hid => h id (by rw [List.flatten_cons]; exact List.mem_append_right _ hid)
    rw [runBatches_cons_eq, promiseAll_map_ok (fetchOne up) mf c hc]
    cases rest with
    | nil => simp
    | cons c2 rest2 =>
      rw [ih hrest]
      simp [List.map_append]
      rfl

theorem runBatches_error (up : Upstream) :
    ∀ (chunks : List (List String)) (id : String) (e : GmailApiError),
      id ∈ chunks.flatten → fetchOne up id = .error e →
      ∃ e2, (runBatches up chunks).result = .error e2 := by
  intro chunks
  induction chunks with
  | nil => intro id e hid _; simp at hid
  | cons c rest ih =>
    intro id e hid hfail
    cases hps : promiseAll (c.map (fetchOne up)) with
    | error e0 =>
      refine ⟨e0, ?_⟩
      rw [runBatches_cons_eq, hps]
    | ok msgs =>
      have hid2 : id ∈ rest.flatten := by
        rw [List.flatten_cons] at hid
        rcases List.mem_append.mp hid with h0 | h0
        · exfalso
          obtain ⟨v, hv⟩ := promiseAll_ok_mem (c.map (fetchOne up)) msgs hps
            (fetchOne up id) (List.mem_map_of_mem (fetchOne up) h0)
          rw [hfail] at hv
          cases hv
        · exact h0
      cases rest with
      | nil => simp at hid2
      | cons c2 rest2 =>
        obtain ⟨e2, he2⟩ := ih id e hid2 hfail
        refine ⟨e2, ?_⟩
        rw [runBatches_cons_eq, hps]
        show Except.map (fun ms => msgs ++ ms) (runBatches up (c2 :: rest2)).result =
          Except.error e2
        rw [he2]
        rfl

/-- C10: when every individual fetch succeeds, `fetchMessagesBatch`
returns exactly one message per requested id, in exactly the order of
the input id list — the ids are split into consecutive batches of
`batchSize` (each of length at most `batchSize`) processed sequentially,
results concatenated in request order — and an empty id list yields an
empty result with no upstream call and no inter-batch delay. -/
theorem fetchMessagesBatch_order (up : Upstream) (ids : List String)
    (bs : Nat) (mf : String → GMessage) (hbs : 0 < bs)
    (hok : ∀ id ∈ ids, fetchOne up id = .ok (mf id)) :
    (fetchMessagesBatch up ids bs).result = .ok (ids.map mf) ∧
    (fetchMessagesBatch up ids bs).calls = ids ∧
    (chunkList bs ids).flatten = ids ∧
    (∀ c ∈ chunkList bs ids, c.length ≤ bs) ∧
    (∀ (up2 : Upstream) (bs2 : Nat),
      fetchMessagesBatch up2 ([] : List String) bs2 = ⟨.ok [], [], 0⟩) := by
  have hj := chunkList_flatten bs ids
  have hrun := runBatches_ok up mf (chunkList bs ids) (by rw [hj]; exact hok)
  rw [hj] at hrun
  refine ⟨?_, ?_, hj, ?_, ?_⟩
  · rw [fetchMessagesBatch, hrun]
  · rw [fetchMessagesBatch, hrun]
  · obtain ⟨b, rfl⟩ : ∃ b, bs = b + 1 := ⟨bs - 1, by omega⟩
    exact fun c hc => chunkGo_length_le b ids.length ids (le_refl _) c hc
  · intro up2 bs2
    rfl

/-- Witness for C10: three ids fetched in batches of two, every fetch
succeeding. -/
theorem fetchMessagesBatch_order_witness :
    (fetchMessagesBatch upNoTok ["a", "b", "c"] 2).result =
      .ok (["a", "b", "c"].map (fun _ => mOk)) ∧
    (fetchMessagesBatch upNoTok ["a", "b", "c"] 2).calls = ["a", "b", "c"] ∧
    (chunkList 2 ["a", "b", "c"]).flatten = ["a", "b", "c"] ∧
    (∀ c ∈ chunkList 2 ["a", "b", "c"], c.length ≤ 2) ∧
    (∀ (up2 : Upstream) (bs2 : Nat),
      fetchMessagesBatch up2 ([] : List String) bs2 = ⟨.ok [], [], 0⟩) :=
  fetchMessagesBatch_order upNoTok ["a", "b", "c"] 2 (fun _ => mOk)
    (by decide) (fun id _ => rfl)


/-! ## Persistence counter lemmas -/

theorem processBatchFull_counts (u : String) :
    ∀ (msgs : List GMessage) (db : Db) (s e : Nat),
      (msgs.foldl (processStepFull u) (db, s, e)).2.1 +
        (msgs.foldl (processStepFull u) (db, s, e)).2.2 = s + e + msgs.length := by
  intro msgs
  induction msgs with
  | nil => intro db s e; simp
  | cons m msgs ih =>
    intro db s e
    rw [List.foldl_cons]
    cases hr : (processMessageFull u m db).2 with
    | false =>
      have hstep : processStepFull u (db, s, e) m =
          ((processMessageFull u m db).1, s, e + 1) := by
        simp [processStepFull, hr]
      rw [hstep, ih]
      simp [List.length_cons]
      omega
    | true =>
      have hstep : processStepFull u (db, s, e) m =
          ((processMessageFull u m db).1, s + 1, e) := by
        simp [processStepFull, hr]
      rw [hstep, ih]
      simp [List.length_cons]
      omega

theorem processBatchFull_total (u : String) (msgs : List GMessage) (db : Db) :
    (processBatchFull u msgs db).2.1 + (processBatchFull u msgs db).2.2 =
      msgs.length := by
  have h := processBatchFull_counts u msgs db 0 0
  simpa [processBatchFull] using h

/-! ## Fetch-failure propagation (C1) -/

theorem fetchMessagesBatch_error (up : Upstream) (ids : List String) (bs : Nat)
    (id : String) (e : GmailApiError) (hid : id ∈ ids)
    (hfail : fetchOne up id = .error e) :
    ∃ e2, (fetchMessagesBatch up ids bs).result = .error e2 :=
  runBatches_error up (chunkList bs ids) id e
    (by rw [chunkList_flatten]; exact hid) hfail

theorem syncFetchLoop_error_first_page (up : Upstream) (mpp maxPages : Nat)
    (id : String) (e : GmailApiError)
    (hid : id ∈ (up.listPage mpp none).ids)
    (hfail : fetchOne up id = .error e) :
    ∃ e2, syncFetchLoop up mpp maxPages = .error e2 := by
  obtain ⟨e2, he2⟩ :=
    fetchMessagesBatch_error up (up.listPage mpp none).ids 10 id e hid hfail
  refine ⟨e2, ?_⟩
  have hne : (up.listPage mpp none).ids.isEmpty = false := by
    cases h : (up.listPage mpp none).ids with
    | nil => rw [h] at hid; cases hid
    | cons a l => rfl
  rw [syncFetchLoop]
  simp only [syncLoopGo, hne, Bool.false_eq_true, if_false, he2]

/-- Counterexample to C1: in `syncUserEmails` over an upstream whose
single page lists ids a and b, where a's fetch keeps failing with a 500
after the whole retry budget while b's fetch succeeds, the rejection of
`Promise.all` inside the batch fetch propagates and the whole sync call
rejects: no per-message error is counted, and b is not persisted even
though it was fetchable (the store is returned untouched). -/
theorem fetch_abort_counterexample :
    syncUserEmails db0 upFail 99 "u" 5 100 = (.error (.api e500), db0) ∧
    fetchOne upFail "b" = .ok mPlain :=
  ⟨rfl, rfl⟩

/-- C1 (amended): when one message id of a fetched page still fails
after the Backoff Executor's retry budget, the error propagates out of
the batch fetch (`Promise.all` rejects) and aborts the entire sync call
— the call rejects with the API error and nothing is persisted; the
per-message error counting of the orchestrator applies only to the
persistence stage, where synced plus errors always accounts for every
message of a batch. -/
theorem fetch_failure_aborts_sync (db : Db) (up : Upstream) (now : Nat)
    (u : String) (maxPages mpp : Nat) (a : AccountRow) (id : String)
    (e : GmailApiError) (hacc : findGoogleAccount db u = some a)
    (htok : a.accessToken.isNone = false)
    (hid : id ∈ (up.listPage mpp none).ids)
    (hfail : fetchOne up id = .error e) :
    (∃ e2, syncUserEmails db up now u maxPages mpp = (.error (.api e2), db)) ∧
    (∀ (u2 : String) (msgs : List GMessage) (db2 : Db),
      (processBatchFull u2 msgs db2).2.1 + (processBatchFull u2 msgs db2).2.2 =
        msgs.length) := by
  obtain ⟨e2, he2⟩ := syncFetchLoop_error_first_page up mpp maxPages id e hid hfail
  refine ⟨⟨e2, ?_⟩, fun u2 msgs db2 => processBatchFull_total u2 msgs db2⟩
  simp only [syncUserEmails, hacc, htok, he2]
  simp

/-- Witness for the amended C1 at the concrete failing upstream. -/
theorem fetch_failure_aborts_sync_witness :
    (∃ e2, syncUserEmails db0 upFail 99 "u" 5 100 = (.error (.api e2), db0)) ∧
    (∀ (u2 : String) (msgs : List GMessage) (db2 : Db),
      (processBatchFull u2 msgs db2).2.1 + (processBatchFull u2 msgs db2).2.2 =
        msgs.length) :=
  fetch_failure_aborts_sync db0 upFail 99 "u" 5 100
    ⟨"u", "google", some "tok", some "u@gmail.com"⟩ "a" e500 rfl rfl
    (by decide) rfl


/-! ## Page-loop exit analysis (C6) -/

theorem syncLoopGo_exit_cases (up : Upstream) (mpp : Nat) :
    ∀ (fuel : Nat) (tok : Option String) (pageCount maxPages : Nat) (lo : LoopOut),
      syncLoopGo up mpp fuel tok pageCount maxPages = .ok lo →
      lo.reason = .emptyPage ∨ lo.reason = .noToken ∨
        (lo.reason = .ceiling ∧ maxPages ≤ lo.pages) := by
  intro fuel
  induction fuel with
  | zero =>
    intro tok pageCount maxPages lo h
    simp only [syncLoopGo] at h
    injection h with h2
    subst h2
    left
    rfl
  | succ fuel ih =>
    intro tok pageCount maxPages lo h
    simp only [syncLoopGo] at h
    split at h
    · injection h with h2
      subst h2
      left
      rfl
    · split at h
      · exact Except.noConfusion h
      · split at h
        · injection h with h2
          subst h2
          right
          left
          rfl
        · split at h
          · split at h
            · exact Except.noConfusion h
            · rename_i pclt r heq
              injection h with h2
              subst h2
              rcases ih _ _ _ _ heq with h1 | h1 | ⟨h1, h2⟩
              · left; exact h1
              · right; left; exact h1
              · right; right; exact ⟨h1, h2⟩
          · injection h with h2
            subst h2
            right
            right
            refine ⟨rfl, ?_⟩
            rename_i hnlt
            simp only [LoopOut.pages]
            omega

/-- Counterexample to C6: an upstream returning a single non-empty page
with no continuation token.  The loop terminates after one non-empty
page with the ceiling (5) unreached, so termination is caused neither by
an empty page nor by the ceiling — a case the claim's "exactly when"
omits. -/
theorem loop_noToken_counterexample :
    syncFetchLoop upNoTok 100 5 = .ok ⟨[mOk, mOk], 1, 1, .noToken⟩ ∧
    (upNoTok.listPage 100 none).ids ≠ [] ∧ (1 : Nat) < 5 :=
  ⟨rfl, by decide, by decide⟩

set_option maxRecDepth 8000 in
/-- C6 (amended): the full-sync page loop terminates exactly when the
fetched page is empty, when no next-page token remains, or when the
page count reaches the ceiling while a token remains (at least maxPages
pages fetched); against an upstream returning pages of sizes
[100, 100, 37, 0] with ceiling 5, exactly 3 non-empty pages are consumed
and the loop stops because of the empty page, not the ceiling. -/
theorem loop_exit_characterization :
    (∀ (up : Upstream) (mpp maxPages : Nat) (lo : LoopOut),
      syncFetchLoop up mpp maxPages = .ok lo →
      lo.reason = .emptyPage ∨ lo.reason = .noToken ∨
        (lo.reason = .ceiling ∧ maxPages ≤ lo.pages)) ∧
    syncFetchLoop upPages 100 5 = .ok ⟨List.replicate 237 mOk, 4, 3, .emptyPage⟩ := by
  refine ⟨?_, rfl⟩
  intro up mpp maxPages lo h
  exact syncLoopGo_exit_cases up mpp (maxPages + 1) none 0 maxPages lo h

/-- Witness for the amended C6, applied to the [100, 100, 37, 0] mock. -/
theorem loop_exit_characterization_witness :
    (⟨List.replicate 237 mOk, 4, 3, .emptyPage⟩ : LoopOut).reason = .emptyPage ∨
    (⟨List.replicate 237 mOk, 4, 3, .emptyPage⟩ : LoopOut).reason = .noToken ∨
    ((⟨List.replicate 237 mOk, 4, 3, .emptyPage⟩ : LoopOut).reason = .ceiling ∧
      5 ≤ (⟨List.replicate 237 mOk, 4, 3, .emptyPage⟩ : LoopOut).pages) :=
  loop_exit_characterization.1 upPages 100 5 _ loop_exit_characterization.2

/-! ## History sync short-circuit (C7) -/

/-- C7: a history-based sync invocation whose start cursor yields zero
upstream history records returns synced 0 and errors 0, and leaves the
store — in particular the Sync State row, its `lastDeltaSync` timestamp
and its stored history cursor — completely unchanged. -/
theorem history_sync_empty_untouched (db : Db) (up : Upstream) (now : Nat)
    (u hid : String) (a : AccountRow)
    (hacc : findGoogleAccount db u = some a)
    (htok : a.accessToken.isNone = false)
    (hhist : up.history hid = []) :
    syncUserEmailsByHistory db up now u hid = (.ok ⟨0, 0, 0⟩, db) := by
  simp only [syncUserEmailsByHistory, hacc, htok, hhist]
  simp

/-- Witness for C7 at a concrete store and an upstream with an empty
history. -/
theorem history_sync_empty_untouched_witness :
    syncUserEmailsByHistory db0 upPages 7 "u" "12345" = (.ok ⟨0, 0, 0⟩, db0) :=
  history_sync_empty_untouched db0 upPages 7 "u" "12345"
    ⟨"u", "google", some "tok", some "u@gmail.com"⟩ rfl rfl rfl


/-! ## Persistence upserter lemmas -/

theorem find?_map_pred {α : Type} (g : α → α) (p : α → Bool)
    (hp : ∀ x, p (g x) = p x) :
    ∀ (l : List α), (l.map g).find? p = (l.find? p).map g := by
  intro l
  induction l with
  | nil => rfl
  | cons x l ih =>
    cases hx : p x with
    | true =>
      rw [List.map_cons, List.find?_cons_of_pos _ (by rw [hp x]; exact hx),
        List.find?_cons_of_pos _ hx]
      rfl
    | false =>
      rw [List.map_cons, List.find?_cons_of_neg _ (by simp [hp x, hx]),
        List.find?_cons_of_neg _ (by simp [hx]), ih]

theorem find?_append_none {α : Type} (p : α → Bool) :
    ∀ (l1 l2 : List α), l1.find? p = none → (l1 ++ l2).find? p = l2.find? p := by
  intro l1
  induction l1 with
  | nil => intro l2 _; rfl
  | cons x l1 ih =>
    intro l2 h
    cases hx : p x with
    | true => rw [List.find?_cons_of_pos _ hx] at h; cases h
    | false =>
      rw [List.find?_cons_of_neg _ (by simp [hx])] at h
      rw [List.cons_append, List.find?_cons_of_neg _ (by simp [hx]), ih l2 h]

theorem countP_map_pred {α : Type} (g : α → α) (p : α → Bool)
    (hp : ∀ x, p (g x) = p x) (l : List α) :
    (l.map g).countP p = l.countP p := by
  induction l with
  | nil => rfl
  | cons x l ih =>
    rw [List.map_cons, List.countP_cons, List.countP_cons, ih, hp x]

theorem findThread_updateThreadRow (db : Db) (rid : Nat)
    (f : ThreadRow → ThreadRow)
    (hf : ∀ t, (f t).userId = t.userId ∧ (f t).gmailThreadId = t.gmailThreadId)
    (u tid : String) :
    findThread (updateThreadRow db rid f) u tid =
      (findThread db u tid).map (fun t => if t.id == rid then f t else t) := by
  unfold findThread updateThreadRow
  exact find?_map_pred _ _
    (fun t => by
      by_cases h : (t.id == rid) = true
      · simp [h, (hf t).1, (hf t).2]
      · simp [h]) db.threads

theorem threadKey_frame_updateThreadRow (db : Db) (rid : Nat)
    (f : ThreadRow → ThreadRow) (hf : ∀ t, threadKey (f t) = threadKey t) :
    (updateThreadRow db rid f).threads.map threadKey = db.threads.map threadKey := by
  unfold updateThreadRow
  simp only [List.map_map]
  refine List.map_congr_left (fun t _ => ?_)
  by_cases h : (t.id == rid) = true
  · simp [Function.comp, h, hf t]
  · simp [Function.comp, h]

theorem threadStepBasic_messages (u : String) (m : GMessage) (date : Nat)
    (db : Db) : ((threadStepBasic u m date db).1).messages = db.messages := by
  unfold threadStepBasic
  cases findThread db u m.threadId <;> rfl

theorem countMsg_zero_find (db : Db) (u mid : String)
    (h : countMsg db u mid = 0) : findMessage db u mid = none := by
  unfold countMsg at h
  unfold findMessage
  rw [List.find?_eq_none]
  intro x hx
  have h2 := List.countP_eq_zero.mp h x hx
  simpa using h2

theorem processMessageFull_eq (u : String) (m : GMessage) (db : Db) (d : Nat)
    (hd : m.internalDate = some d) :
    processMessageFull u m db =
      (upsertMessageFull u m d (threadStepBasic u m d db).2
        (threadStepBasic u m d db).1, true) := by
  simp only [processMessageFull, hd]

theorem processMessagePaginated_eq (u : String) (m : GMessage) (db : Db)
    (d : Nat) (hd : m.internalDate = some d) :
    processMessagePaginated u m db =
      (upsertMessagePaginated u m d (threadStepPaginated u m d db).2
        (threadStepPaginated u m d db).1, true) := by
  simp only [processMessagePaginated, hd]

theorem upsertMessageFull_create (u : String) (m : GMessage) (date tid : Nat)
    (db : Db) (hnone : findMessage db u m.id = none) :
    upsertMessageFull u m date tid db =
      { db with messages := db.messages ++ [messageCreateRow u m date tid] } := by
  simp only [upsertMessageFull, hnone]

theorem upsertMessageFull_update (u : String) (m : GMessage) (date tid : Nat)
    (db : Db) (r : MessageRow) (hsome : findMessage db u m.id = some r) :
    upsertMessageFull u m date tid db =
      updateThreadRow (updateMessageRow db u m.id (msgSnippetUpd m)) r.threadId
        (nestedFlagsBasic m) := by
  simp only [upsertMessageFull, hsome]

theorem threadFlagsBasic_key (m : GMessage) (date : Nat) (t : ThreadRow) :
    threadKey (threadFlagsBasic m date t) = threadKey t := rfl

theorem nestedFlagsBasic_key (m : GMessage) (t : ThreadRow) :
    threadKey (nestedFlagsBasic m t) = threadKey t := rfl

theorem threadStepBasic_thread (u : String) (m : GMessage) (date : Nat) (db : Db) :
    ∃ t, findThread (threadStepBasic u m date db).1 u m.threadId = some t ∧
      t.isRead = !(hasLabel m "UNREAD") ∧ t.isStarred = hasLabel m "STARRED" ∧
      t.lastMessageAt = date ∧ t.snippet = m.snippet ∧
      (∀ t0, findThread db u m.threadId = some t0 →
        t.id = t0.id ∧ t.subject = t0.subject ∧ t.isImportant = t0.isImportant) ∧
      (findThread db u m.threadId = none →
        t.subject = (parseEmailHeaders m.payload.headers).subject ∧
          t.isImportant = false) := by
  cases hf : findThread db u m.threadId with
  | some t0 =>
    refine ⟨threadFlagsBasic m date t0, ?_, rfl, rfl, rfl, rfl, ?_, ?_⟩
    · simp only [threadStepBasic, hf]
      rw [findThread_updateThreadRow db t0.id (threadFlagsBasic m date)
        (fun t => ⟨rfl, rfl⟩) u m.threadId, hf]
      simp [threadFlagsBasic]
    · intro t1 h1
      injection h1 with h1
      subst h1
      exact ⟨rfl, rfl, rfl⟩
    · intro h1
      cases h1
  | none =>
    refine ⟨⟨db.nextThreadId, u, m.threadId,
      (parseEmailHeaders m.payload.headers).subject, date, m.snippet,
      !(hasLabel m "UNREAD"), hasLabel m "STARRED", false⟩,
      ?_, rfl, rfl, rfl, rfl, ?_, ?_⟩
    · simp only [threadStepBasic, hf]
      unfold findThread at hf ⊢
      rw [find?_append_none _ db.threads _ hf, List.find?_cons_of_pos _ (by simp)]
    · intro t1 h1
      cases h1
    · intro _
      exact ⟨rfl, rfl⟩

theorem upsertMessageFull_thread (u : String) (m : GMessage) (date tid : Nat)
    (db : Db) (t : ThreadRow) (hfind : findThread db u m.threadId = some t)
    (hread : t.isRead = !(hasLabel m "UNREAD"))
    (hstar : t.isStarred = hasLabel m "STARRED") :
    findThread (upsertMessageFull u m date tid db) u m.threadId = some t := by
  cases hm : findMessage db u m.id with
  | none =>
    rw [upsertMessageFull_create u m date tid db hm]
    exact hfind
  | some r =>
    rw [upsertMessageFull_update u m date tid db r hm]
    rw [findThread_updateThreadRow (updateMessageRow db u m.id (msgSnippetUpd m))
      r.threadId (nestedFlagsBasic m) (fun tr => ⟨rfl, rfl⟩) u m.threadId]
    have hsame : findThread (updateMessageRow db u m.id (msgSnippetUpd m))
        u m.threadId = findThread db u m.threadId := rfl
    rw [hsame, hfind]
    by_cases hid : (t.id == r.threadId) = true
    · show some (if t.id == r.threadId then nestedFlagsBasic m t else t) = some t
      rw [if_pos hid]
      unfold nestedFlagsBasic
      rw [← hread, ← hstar]
    · show some (if t.id == r.threadId then nestedFlagsBasic m t else t) = some t
      rw [if_neg hid]

theorem processMessageFull_thread (u : String) (m : GMessage) (date : Nat)
    (db : Db) (hd : m.internalDate = some date) :
    ∃ t, findThread (processMessageFull u m db).1 u m.threadId = some t ∧
      t.isRead = !(hasLabel m "UNREAD") ∧ t.isStarred = hasLabel m "STARRED" ∧
      t.lastMessageAt = date ∧ t.snippet = m.snippet ∧
      (∀ t0, findThread db u m.threadId = some t0 →
        t.id = t0.id ∧ t.subject = t0.subject ∧ t.isImportant = t0.isImportant) ∧
      (findThread db u m.threadId = none →
        t.subject = (parseEmailHeaders m.payload.headers).subject ∧
          t.isImportant = false) := by
  obtain ⟨t, hft, hread, hstar, hlast, hsnip, hupd, hnew⟩ :=
    threadStepBasic_thread u m date db
  refine ⟨t, ?_, hread, hstar, hlast, hsnip, hupd, hnew⟩
  rw [processMessageFull_eq u m db date hd]
  exact upsertMessageFull_thread u m date (threadStepBasic u m date db).2
    (threadStepBasic u m date db).1 t hft hread hstar

theorem upsertMessageFull_frame (u : String) (m : GMessage) (date tid : Nat)
    (db : Db) :
    (upsertMessageFull u m date tid db).threads.map threadKey =
      db.threads.map threadKey := by
  cases hm : findMessage db u m.id with
  | none => rw [upsertMessageFull_create u m date tid db hm]
  | some r =>
    rw [upsertMessageFull_update u m date tid db r hm]
    rw [threadKey_frame_updateThreadRow _ r.threadId (nestedFlagsBasic m)
      (fun t => rfl)]
    rfl

theorem threadStepBasic_frame (u : String) (m : GMessage) (date : Nat)
    (db : Db) (t0 : ThreadRow) (hf : findThread db u m.threadId = some t0) :
    ((threadStepBasic u m date db).1).threads.map threadKey =
      db.threads.map threadKey := by
  simp only [threadStepBasic, hf]
  exact threadKey_frame_updateThreadRow db t0.id (threadFlagsBasic m date)
    (fun t => rfl)

theorem processMessageFull_frame (u : String) (m : GMessage) (db : Db)
    (hsome : (findThread db u m.threadId).isSome = true) :
    ((processMessageFull u m db).1).threads.map threadKey =
      db.threads.map threadKey := by
  cases hd : m.internalDate with
  | none => simp only [processMessageFull, hd]
  | some date =>
    obtain ⟨t0, hf⟩ := Option.isSome_iff_exists.mp hsome
    rw [processMessageFull_eq u m db date hd]
    have h1 := upsertMessageFull_frame u m date (threadStepBasic u m date db).2
      (threadStepBasic u m date db).1
    rw [h1, threadStepBasic_frame u m date db t0 hf]


/-! ## Batch fold lemmas (C8) -/

theorem foldl_processStepFull_db (u : String) :
    ∀ (msgs : List GMessage) (db : Db) (s e : Nat),
      (msgs.foldl (processStepFull u) (db, s, e)).1 =
        msgs.foldl (fun d m2 => (processMessageFull u m2 d).1) db := by
  intro msgs
  induction msgs with
  | nil => intro db s e; rfl
  | cons m msgs ih =>
    intro db s e
    rw [List.foldl_cons, List.foldl_cons]
    have hstep : processStepFull u (db, s, e) m =
        ((processMessageFull u m db).1, (processStepFull u (db, s, e) m).2.1,
          (processStepFull u (db, s, e) m).2.2) := rfl
    rw [hstep, ih]

theorem dbFold_thread (u T : String) :
    ∀ (msgs : List GMessage) (mlast : GMessage) (db : Db) (t0 : ThreadRow),
      findThread db u T = some t0 →
      (∀ m ∈ msgs, m.threadId = T ∧ m.internalDate.isSome = true) →
      msgs.getLast? = some mlast →
      ((msgs.foldl (fun d m2 => (processMessageFull u m2 d).1) db).threads.map
          threadKey = db.threads.map threadKey) ∧
      ∃ t, findThread (msgs.foldl (fun d m2 => (processMessageFull u m2 d).1) db)
          u T = some t ∧
        t.id = t0.id ∧ t.subject = t0.subject ∧
        t.isRead = !(hasLabel mlast "UNREAD") ∧
        t.isStarred = hasLabel mlast "STARRED" ∧
        t.lastMessageAt = mlast.internalDate.getD 0 ∧
        t.snippet = mlast.snippet := by
  intro msgs
  induction msgs with
  | nil => intro mlast db t0 _ _ hl; cases hl
  | cons m msgs ih =>
    intro mlast db t0 hf hall hl
    obtain ⟨hT, hD⟩ := hall m (List.mem_cons_self m msgs)
    obtain ⟨dm, hdm⟩ := Option.isSome_iff_exists.mp hD
    obtain ⟨t1, hft1, hread1, hstar1, hlast1, hsnip1, hupd1, _⟩ :=
      processMessageFull_thread u m dm db hdm
    rw [hT] at hft1
    obtain ⟨hid1, hsubj1, _⟩ := hupd1 t0 (by rw [hT]; exact hf)
    have hframe1 : ((processMessageFull u m db).1).threads.map threadKey =
        db.threads.map threadKey :=
      processMessageFull_frame u m db (by rw [hT, hf]; rfl)
    rw [List.foldl_cons]
    cases msgs with
    | nil =>
      have hml : m = mlast := by
        simp only [List.getLast?_singleton] at hl
        injection hl
      subst hml
      simp only [List.foldl_nil]
      refine ⟨hframe1, t1, hft1, hid1, hsubj1, hread1, hstar1, ?_, hsnip1⟩
      rw [hdm]
      exact hlast1
    | cons m2 rest =>
      rw [List.getLast?_cons_cons] at hl
      have hall2 : ∀ mx ∈ m2 :: rest, mx.threadId = T ∧ mx.internalDate.isSome = true :=
        fun mx hmx => hall mx (List.mem_cons_of_mem m hmx)
      obtain ⟨hframe2, t, hft, hid, hsubj, hrd, hst, hlm, hsn⟩ :=
        ih mlast ((processMessageFull u m db).1) t1 hft1 hall2 hl
      exact ⟨by rw [hframe2, hframe1], t, hft, by rw [hid, hid1],
        by rw [hsubj, hsubj1], hrd, hst, hlm, hsn⟩

/-- C8: for a batch of messages that all belong to one already-existing
thread, processing writes only the derived flags, lastMessageAt and
snippet on thread rows — the identifying fields and the subject of every
thread row are left exactly as they were, so the subject is never
overwritten — and after the batch completes the thread's flags,
lastMessageAt and snippet equal those derived from the last message
processed in iteration order. -/
theorem thread_frame_last_wins (u T : String) (msgs : List GMessage)
    (mlast : GMessage) (db : Db) (t0 : ThreadRow)
    (hfound : findThread db u T = some t0)
    (hall : ∀ m ∈ msgs, m.threadId = T ∧ m.internalDate.isSome = true)
    (hlast : msgs.getLast? = some mlast) :
    ((processBatchFull u msgs db).1.threads.map threadKey =
      db.threads.map threadKey) ∧
    ∃ t, findThread (processBatchFull u msgs db).1 u T = some t ∧
      t.id = t0.id ∧ t.subject = t0.subject ∧
      t.isRead = !(hasLabel mlast "UNREAD") ∧
      t.isStarred = hasLabel mlast "STARRED" ∧
      t.lastMessageAt = mlast.internalDate.getD 0 ∧
      t.snippet = mlast.snippet := by
  have hdb : (processBatchFull u msgs db).1 =
      msgs.foldl (fun d m2 => (processMessageFull u m2 d).1) db := by
    unfold processBatchFull
    exact foldl_processStepFull_db u msgs db 0 0
  rw [hdb]
  exact dbFold_thread u T msgs mlast db t0 hfound hall hlast

/-- Witness for C8: a two-message batch over an existing thread; the
persisted flags come from the second message. -/
theorem thread_frame_last_wins_witness :
    ((processBatchFull "u" [mPlain, mOk] dbT).1.threads.map threadKey =
      dbT.threads.map threadKey) ∧
    ∃ t, findThread (processBatchFull "u" [mPlain, mOk] dbT).1 "u" "t1" = some t ∧
      t.id = (⟨0, "u", "t1", "subj", 1, "s0", true, false, false⟩ : ThreadRow).id ∧
      t.subject = (⟨0, "u", "t1", "subj", 1, "s0", true, false, false⟩ : ThreadRow).subject ∧
      t.isRead = !(hasLabel mOk "UNREAD") ∧
      t.isStarred = hasLabel mOk "STARRED" ∧
      t.lastMessageAt = mOk.internalDate.getD 0 ∧
      t.snippet = mOk.snippet :=
  thread_frame_last_wins "u" "t1" [mPlain, mOk] mOk dbT
    ⟨0, "u", "t1", "subj", 1, "s0", true, false, false⟩ rfl (by decide) rfl


/-! ## Paginated-path flag derivation (C5) -/

theorem upsertMessagePaginated_create (u : String) (m : GMessage)
    (date tid : Nat) (db : Db) (hnone : findMessage db u m.id = none) :
    upsertMessagePaginated u m date tid db =
      { db with messages := db.messages ++ [messageCreateRow u m date tid] } := by
  simp only [upsertMessagePaginated, hnone]

theorem upsertMessagePaginated_update (u : String) (m : GMessage)
    (date tid : Nat) (db : Db) (r : MessageRow)
    (hsome : findMessage db u m.id = some r) :
    upsertMessagePaginated u m date tid db =
      updateThreadRow (updateMessageRow db u m.id (msgSnippetUpd m)) r.threadId
        (nestedFlagsPaginated m) := by
  simp only [upsertMessagePaginated, hsome]

theorem threadStepPaginated_thread (u : String) (m : GMessage) (date : Nat)
    (db : Db) :
    ∃ t, findThread (threadStepPaginated u m date db).1 u m.threadId = some t ∧
      t.isRead = !(hasLabel m "UNREAD") ∧ t.isStarred = hasLabel m "STARRED" ∧
      t.isImportant = hasLabel m "IMPORTANT" := by
  cases hf : findThread db u m.threadId with
  | some t0 =>
    refine ⟨threadFlagsPaginated m date t0, ?_, rfl, rfl, rfl⟩
    simp only [threadStepPaginated, hf]
    rw [findThread_updateThreadRow db t0.id (threadFlagsPaginated m date)
      (fun t => ⟨rfl, rfl⟩) u m.threadId, hf]
    simp [threadFlagsPaginated]
  | none =>
    refine ⟨⟨db.nextThreadId, u, m.threadId,
      (parseEmailHeaders m.payload.headers).subject, date, m.snippet,
      !(hasLabel m "UNREAD"), hasLabel m "STARRED", hasLabel m "IMPORTANT"⟩,
      ?_, rfl, rfl, rfl⟩
    simp only [threadStepPaginated, hf]
    unfold findThread at hf ⊢
    rw [find?_append_none _ db.threads _ hf, List.find?_cons_of_pos _ (by simp)]

theorem upsertMessagePaginated_thread (u : String) (m : GMessage)
    (date tid : Nat) (db : Db) (t : ThreadRow)
    (hfind : findThread db u m.threadId = some t)
    (hread : t.isRead = !(hasLabel m "UNREAD"))
    (hstar : t.isStarred = hasLabel m "STARRED")
    (himp : t.isImportant = hasLabel m "IMPORTANT") :
    findThread (upsertMessagePaginated u m date tid db) u m.threadId = some t := by
  cases hm : findMessage db u m.id with
  | none =>
    rw [upsertMessagePaginated_create u m date tid db hm]
    exact hfind
  | some r =>
    rw [upsertMessagePaginated_update u m date tid db r hm]
    rw [findThread_updateThreadRow (updateMessageRow db u m.id (msgSnippetUpd m))
      r.threadId (nestedFlagsPaginated m) (fun tr => ⟨rfl, rfl⟩) u m.threadId]
    have hsame : findThread (updateMessageRow db u m.id (msgSnippetUpd m))
        u m.threadId = findThread db u m.threadId := rfl
    rw [hsame, hfind]
    by_cases hid : (t.id == r.threadId) = true
    · show some (if t.id == r.threadId then nestedFlagsPaginated m t else t) = some t
      rw [if_pos hid]
      unfold nestedFlagsPaginated
      rw [← hread, ← hstar, ← himp]
    · show some (if t.id == r.threadId then nestedFlagsPaginated m t else t) = some t
      rw [if_neg hid]

theorem processMessagePaginated_thread (u : String) (m : GMessage) (db : Db)
    (d : Nat) (hd : m.internalDate = some d) :
    ∃ t, findThread (processMessagePaginated u m db).1 u m.threadId = some t ∧
      t.isRead = !(hasLabel m "UNREAD") ∧ t.isStarred = hasLabel m "STARRED" ∧
      t.isImportant = hasLabel m "IMPORTANT" := by
  obtain ⟨t, hft, h1, h2, h3⟩ := threadStepPaginated_thread u m d db
  refine ⟨t, ?_, h1, h2, h3⟩
  rw [processMessagePaginated_eq u m db d hd]
  exact upsertMessagePaginated_thread u m d (threadStepPaginated u m d db).2
    (threadStepPaginated u m d db).1 t hft h1 h2 h3

/-- Counterexample to C5: the full-sync persistence path of
`syncUserEmails` derives only `isRead` and `isStarred`; a message
labelled UNREAD and IMPORTANT persists a thread whose `isImportant` is
false (the schema default), not true as the claim requires of every
processed message. -/
theorem important_label_dropped_counterexample :
    hasLabel mPlain "IMPORTANT" = true ∧
    (findThread (processMessageFull "u" mPlain db0).1 "u" "t1").map
      (fun t => (t.isRead, t.isStarred, t.isImportant)) =
      some (false, false, false) :=
  ⟨rfl, rfl⟩

/-- C5 (amended): in the paginated sync path the persisted thread flags
are derived from the label set as isRead = not(labels contain UNREAD),
isStarred = labels contain STARRED, isImportant = labels contain
IMPORTANT, and an absent label set yields isRead = true, isStarred =
false, isImportant = false; in the full/delta/history paths only isRead
and isStarred are derived and isImportant is left at its default. -/
theorem paginated_flags_derived (u : String) (m : GMessage) (db : Db)
    (d : Nat) (hd : m.internalDate = some d) :
    (∃ t, findThread (processMessagePaginated u m db).1 u m.threadId = some t ∧
      t.isRead = !(hasLabel m "UNREAD") ∧ t.isStarred = hasLabel m "STARRED" ∧
      t.isImportant = hasLabel m "IMPORTANT") ∧
    (m.labelIds = none →
      ∃ t, findThread (processMessagePaginated u m db).1 u m.threadId = some t ∧
        t.isRead = true ∧ t.isStarred = false ∧ t.isImportant = false) := by
  obtain ⟨t, hft, h1, h2, h3⟩ := processMessagePaginated_thread u m db d hd
  refine ⟨⟨t, hft, h1, h2, h3⟩, fun hnone => ⟨t, hft, ?_, ?_, ?_⟩⟩
  · rw [h1]; unfold hasLabel; rw [hnone]; rfl
  · rw [h2]; unfold hasLabel; rw [hnone]; rfl
  · rw [h3]; unfold hasLabel; rw [hnone]; rfl

/-- Witness for the amended C5 at the UNREAD+IMPORTANT scenario message:
the persisted thread has isRead = false, isStarred = false and
isImportant = true in the paginated path. -/
theorem paginated_flags_derived_witness :
    (∃ t, findThread (processMessagePaginated "u" mPlain db0).1 "u"
        mPlain.threadId = some t ∧
      t.isRead = !(hasLabel mPlain "UNREAD") ∧
      t.isStarred = hasLabel mPlain "STARRED" ∧
      t.isImportant = hasLabel mPlain "IMPORTANT") ∧
    (mPlain.labelIds = none →
      ∃ t, findThread (processMessagePaginated "u" mPlain db0).1 "u"
          mPlain.threadId = some t ∧
        t.isRead = true ∧ t.isStarred = false ∧ t.isImportant = false) :=
  paginated_flags_derived "u" mPlain db0 1000 rfl


/-! ## Message-row idempotence (C3) -/

theorem findMessage_updateMessageRow (db : Db) (u mid : String)
    (f : MessageRow → MessageRow)
    (hf : ∀ r, (f r).userId = r.userId ∧ (f r).gmailMessageId = r.gmailMessageId)
    (u2 mid2 : String) :
    findMessage (updateMessageRow db u mid f) u2 mid2 =
      (findMessage db u2 mid2).map
        (fun r => if r.userId == u && r.gmailMessageId == mid then f r else r) := by
  unfold findMessage updateMessageRow
  exact find?_map_pred _ _ (fun r => by
    by_cases h : (r.userId == u && r.gmailMessageId == mid) = true
    · simp [h, (hf r).1, (hf r).2]
    · simp [h]) db.messages

theorem countMsg_updateMessageRow (db : Db) (u mid : String)
    (f : MessageRow → MessageRow)
    (hf : ∀ r, (f r).userId = r.userId ∧ (f r).gmailMessageId = r.gmailMessageId)
    (u2 mid2 : String) :
    countMsg (updateMessageRow db u mid f) u2 mid2 = countMsg db u2 mid2 := by
  unfold countMsg updateMessageRow
  exact countP_map_pred _ _ (fun r => by
    by_cases h : (r.userId == u && r.gmailMessageId == mid) = true
    · simp [h, (hf r).1, (hf r).2]
    · simp [h]) db.messages

theorem processMessageFull_messages_create (u : String) (m : GMessage) (db : Db)
    (d : Nat) (hd : m.internalDate = some d)
    (habs : findMessage db u m.id = none) :
    ((processMessageFull u m db).1).messages =
      db.messages ++ [messageCreateRow u m d (threadStepBasic u m d db).2] := by
  rw [processMessageFull_eq u m db d hd]
  have habs2 : findMessage (threadStepBasic u m d db).1 u m.id = none := by
    unfold findMessage
    rw [threadStepBasic_messages]
    exact habs
  rw [upsertMessageFull_create u m d (threadStepBasic u m d db).2 _ habs2]
  simp [threadStepBasic_messages]

/-- C3: a message processed twice (re-sync) leaves exactly one
EmailMessage row for its (user, upstream message id) key after both
passes; the second pass refreshes only the snippet (plus the derived
flags on the parent thread) while from, to, cc, bcc, subject, textPlain
and internalDate stay exactly as written by the first pass. -/
theorem resync_idempotent (u : String) (m m2 : GMessage) (db : Db) (d d2 : Nat)
    (hd : m.internalDate = some d) (hd2 : m2.internalDate = some d2)
    (hid : m2.id = m.id) (htid : m2.threadId = m.threadId)
    (h0 : countMsg db u m.id = 0) :
    countMsg (processMessageFull u m db).1 u m.id = 1 ∧
    countMsg (processMessageFull u m2 (processMessageFull u m db).1).1 u m.id = 1 ∧
    (∃ r, findMessage (processMessageFull u m2 (processMessageFull u m db).1).1
        u m.id = some r ∧
      r.internalDate = d ∧
      r.fromA = (parseEmailHeaders m.payload.headers).fromA ∧
      r.toA = (parseEmailHeaders m.payload.headers).toA ∧
      r.cc = (parseEmailHeaders m.payload.headers).cc ∧
      r.bcc = (parseEmailHeaders m.payload.headers).bcc ∧
      r.subject = (parseEmailHeaders m.payload.headers).subject ∧
      r.textPlain = (extractEmailBody m.payload).2 ∧
      r.snippet = m2.snippet) ∧
    (∃ t, findThread (processMessageFull u m2 (processMessageFull u m db).1).1
        u m.threadId = some t ∧
      t.isRead = !(hasLabel m2 "UNREAD") ∧ t.isStarred = hasLabel m2 "STARRED") := by
  have habs : findMessage db u m.id = none := countMsg_zero_find db u m.id h0
  have hmsgs1 : ((processMessageFull u m db).1).messages =
      db.messages ++ [messageCreateRow u m d (threadStepBasic u m d db).2] :=
    processMessageFull_messages_create u m db d hd habs
  have hprow : ((messageCreateRow u m d (threadStepBasic u m d db).2).userId == u
      && (messageCreateRow u m d (threadStepBasic u m d db).2).gmailMessageId
        == m.id) = true := by
    simp [messageCreateRow]
  have hcount1 : countMsg (processMessageFull u m db).1 u m.id = 1 := by
    unfold countMsg
    rw [hmsgs1, List.countP_append]
    have h00 : db.messages.countP
        (fun r => r.userId == u && r.gmailMessageId == m.id) = 0 := h0
    rw [h00]
    simp [hprow]
  have hfind1 : findMessage (processMessageFull u m db).1 u m.id =
      some (messageCreateRow u m d (threadStepBasic u m d db).2) := by
    unfold findMessage
    rw [hmsgs1, find?_append_none _ db.messages _ habs]
    exact List.find?_cons_of_pos _ hprow
  have hfindB : findMessage
      (threadStepBasic u m2 d2 (processMessageFull u m db).1).1 u m2.id =
      some (messageCreateRow u m d (threadStepBasic u m d db).2) := by
    unfold findMessage
    rw [threadStepBasic_messages, hid]
    exact hfind1
  have hfindBm : findMessage
      (threadStepBasic u m2 d2 (processMessageFull u m db).1).1 u m.id =
      some (messageCreateRow u m d (threadStepBasic u m d db).2) := by
    unfold findMessage
    rw [threadStepBasic_messages]
    exact hfind1
  have hdb2 : (processMessageFull u m2 (processMessageFull u m db).1).1 =
      updateThreadRow
        (updateMessageRow (threadStepBasic u m2 d2 (processMessageFull u m db).1).1
          u m2.id (msgSnippetUpd m2))
        (messageCreateRow u m d (threadStepBasic u m d db).2).threadId
        (nestedFlagsBasic m2) := by
    rw [processMessageFull_eq u m2 (processMessageFull u m db).1 d2 hd2]
    show upsertMessageFull u m2 d2
      (threadStepBasic u m2 d2 (processMessageFull u m db).1).2
      (threadStepBasic u m2 d2 (processMessageFull u m db).1).1 = _
    rw [upsertMessageFull_update u m2 d2
      (threadStepBasic u m2 d2 (processMessageFull u m db).1).2
      (threadStepBasic u m2 d2 (processMessageFull u m db).1).1
      (messageCreateRow u m d (threadStepBasic u m d db).2) hfindB]
  refine ⟨hcount1, ?_, ?_, ?_⟩
  · rw [hdb2]
    have hct : countMsg
        (updateThreadRow
          (updateMessageRow
            (threadStepBasic u m2 d2 (processMessageFull u m db).1).1
            u m2.id (msgSnippetUpd m2))
          (messageCreateRow u m d (threadStepBasic u m d db).2).threadId
          (nestedFlagsBasic m2)) u m.id =
        countMsg
          (updateMessageRow
            (threadStepBasic u m2 d2 (processMessageFull u m db).1).1
            u m2.id (msgSnippetUpd m2)) u m.id := rfl
    rw [hct, countMsg_updateMessageRow _ u m2.id (msgSnippetUpd m2)
      (fun r => ⟨rfl, rfl⟩) u m.id]
    have hcB : countMsg
        (threadStepBasic u m2 d2 (processMessageFull u m db).1).1 u m.id =
        countMsg (processMessageFull u m db).1 u m.id := by
      unfold countMsg
      rw [threadStepBasic_messages]
    rw [hcB]
    exact hcount1
  · refine ⟨msgSnippetUpd m2 (messageCreateRow u m d (threadStepBasic u m d db).2),
      ?_, rfl, rfl, rfl, rfl, rfl, rfl, rfl, rfl⟩
    rw [hdb2]
    have hft : findMessage
        (updateThreadRow
          (updateMessageRow
            (threadStepBasic u m2 d2 (processMessageFull u m db).1).1
            u m2.id (msgSnippetUpd m2))
          (messageCreateRow u m d (threadStepBasic u m d db).2).threadId
          (nestedFlagsBasic m2)) u m.id =
        findMessage
          (updateMessageRow
            (threadStepBasic u m2 d2 (processMessageFull u m db).1).1
            u m2.id (msgSnippetUpd m2)) u m.id := rfl
    rw [hft, findMessage_updateMessageRow _ u m2.id (msgSnippetUpd m2)
      (fun r => ⟨rfl, rfl⟩) u m.id, hfindBm]
    show some (if (messageCreateRow u m d (threadStepBasic u m d db).2).userId == u
        && (messageCreateRow u m d (threadStepBasic u m d db).2).gmailMessageId
          == m2.id
      then msgSnippetUpd m2 (messageCreateRow u m d (threadStepBasic u m d db).2)
      else messageCreateRow u m d (threadStepBasic u m d db).2) = _
    rw [hid, if_pos hprow]
  · obtain ⟨t, hft, h1, h2, _, _, _, _⟩ :=
      processMessageFull_thread u m2 d2 (processMessageFull u m db).1 hd2
    rw [htid] at hft
    exact ⟨t, hft, h1, h2⟩

/-- Witness for C3: `mPlain` synced into an empty store and re-synced as
`mPlain2` (same upstream id, new labels and snippet). -/
theorem resync_idempotent_witness :
    countMsg (processMessageFull "u" mPlain db0).1 "u" mPlain.id = 1 ∧
    countMsg (processMessageFull "u" mPlain2
      (processMessageFull "u" mPlain db0).1).1 "u" mPlain.id = 1 ∧
    (∃ r, findMessage (processMessageFull "u" mPlain2
        (processMessageFull "u" mPlain db0).1).1 "u" mPlain.id = some r ∧
      r.internalDate = 1000 ∧
      r.fromA = (parseEmailHeaders mPlain.payload.headers).fromA ∧
      r.toA = (parseEmailHeaders mPlain.payload.headers).toA ∧
      r.cc = (parseEmailHeaders mPlain.payload.headers).cc ∧
      r.bcc = (parseEmailHeaders mPlain.payload.headers).bcc ∧
      r.subject = (parseEmailHeaders mPlain.payload.headers).subject ∧
      r.textPlain = (extractEmailBody mPlain.payload).2 ∧
      r.snippet = mPlain2.snippet) ∧
    (∃ t, findThread (processMessageFull "u" mPlain2
        (processMessageFull "u" mPlain db0).1).1 "u" mPlain.threadId = some t ∧
      t.isRead = !(hasLabel mPlain2 "UNREAD") ∧
      t.isStarred = hasLabel mPlain2 "STARRED") :=
  resync_idempotent "u" mPlain mPlain2 db0 1000 1000 rfl rfl rfl rfl rfl

end GmailSync
